import Mathlib

/-!
# The primer-candidate alignment classifier of `libs/parpl/src/par.cpp`

A shallow embedding of the classifier (`App::processBowtieOutput`), of the
genome registries it consults (`loadGenomeIds`), of the candidate encoder in
`App::alignPrimers` and of the small string helpers they use, followed by the
properties of the design document that were checked against that code.

Conventions of the embedding.

* A `std::string` is the list of its `char`s (`Str`); file contents are
  strings, a file that cannot be opened is `none`.
* A C++ `int` is an `Int`.  `std::stoi` is the one conversion whose range
  check is observable (it throws `std::out_of_range`), so it is modelled with
  its bound; the difference `len - 5` is the 32-bit two's complement result
  (`wrapInt`), as the compiled code computes it; the values scanned by
  `sscanf("%d")` are kept exact (outside the range of `int` C leaves them
  undefined).
* `unsigned` registry ids and `size_t` sizes are `Nat`: registries and lines
  are taken to stay below the limits of these types.
* The loop body of `processBowtieOutput` is the composition of `decodeRecord`
  (from the split of the line to the strand filter) and `classify` (the
  disposition); a `continue` of the first part is the result `ok none`.
* A thrown exception is `Except.error`; writing through an output stream that
  was never opened (an empty `std::unique_ptr`) is the fault `nullStream`.
* An `std::ofstream` is the list of rows written to it so far.
-/

namespace Parpl

/-- A `std::string`, as the list of its characters. -/
abbrev Str := List Char

/-- The ways in which the code can leave its normal control flow. -/
inductive Fault where
  /-- The `std::runtime_error` thrown when a file cannot be opened. -/
  | runtimeError
  /-- The `std::out_of_range` thrown by `std::stoi` and `std::string::substr`. -/
  | outOfRange
  /-- A write through an output stream pointer that is null. -/
  | nullStream
  deriving DecidableEq, Repr

/-- The enumeration `PrimerType`. -/
inductive PrimerType where
  | inner
  | outer
  | loop
  deriving DecidableEq, Repr

/-- The fields of `struct Config` read by the classifier and the driver. -/
structure Config where
  common_file : Str
  special_file : Str
  mis_c : Int
  mis_s : Int
  left : Bool
  loop : Bool
  deriving DecidableEq, Repr

/-! ## `std::unordered_map<std::string, unsigned>` -/

/-- A `std::unordered_map<std::string, unsigned>`, as its list of entries in
insertion order. -/
structure GenomeMap where
  entries : List (Str × Nat)
  deriving DecidableEq, Repr

namespace GenomeMap

/-- The default-constructed map. -/
def empty : GenomeMap := ⟨[]⟩

/-- Lookup of a key among entries. -/
def findEntry (k : Str) : List (Str × Nat) → Option Nat
  | [] => none
  | (k2, v) :: es => if k2 = k then some v else findEntry k es

/-- The member `at(key)`, `none` when the key is absent. -/
def atKey (m : GenomeMap) (k : Str) : Option Nat := findEntry k m.entries

/-- The member `count(key)`, as a truth value. -/
def count (m : GenomeMap) (k : Str) : Bool := (m.atKey k).isSome

/-- The member `size()`. -/
def size (m : GenomeMap) : Nat := m.entries.length

/-- Replacement of the value of a key that is present. -/
def replaceEntry (k : Str) (v : Nat) : List (Str × Nat) → List (Str × Nat)
  | [] => []
  | (k2, v2) :: es => if k2 = k then (k2, v) :: es else (k2, v2) :: replaceEntry k v es

/-- The assignment `m[key] = value`: the value of a present key is replaced, an
absent key is inserted. -/
def assign (m : GenomeMap) (k : Str) (v : Nat) : GenomeMap :=
  if m.count k then ⟨replaceEntry k v m.entries⟩ else ⟨m.entries ++ [(k, v)]⟩

end GenomeMap

/-! ## String helpers -/

/-- The lines successive calls of `std::getline` deliver from a stream with the
given content: the pieces ended by a newline, and the unterminated rest when it
is not empty.  `cur` is the part of the current line read so far. -/
def getlinesFrom (cur : Str) : Str → List Str
  | [] => if cur = [] then [] else [cur]
  | c :: cs => if c = '\n' then cur :: getlinesFrom [] cs else getlinesFrom (cur ++ [c]) cs

/-- The lines of a file, as read by `while (std::getline(file, line))`. -/
def getlines (content : Str) : List Str := getlinesFrom [] content

/-- The function `split(s, delimiter)`: the tokens between delimiters, always at
least one. -/
def split : Str → Char → List Str
  | [], _ => [[]]
  | c :: cs, delimiter =>
    if c = delimiter then [] :: split cs delimiter
    else
      match split cs delimiter with
      | [] => [[c]]
      | t :: ts => (c :: t) :: ts

/-- The function `countMismatches`: the number of `:` in the field. -/
def countMismatches (mismatchField : Str) : Int := (mismatchField.count ':' : Nat)

/-- The value of a string of decimal digits. -/
def digitsValue (ds : Str) : Nat := ds.foldl (fun n c => 10 * n + (c.toNat - 48)) 0

/-- The largest `int`. -/
def intMax : Nat := 2147483647

/-- The call `std::stoi(ds)` on a string of decimal digits (a `\d+` capture):
the value, or `std::out_of_range` when it does not fit an `int`. -/
def stoi (ds : Str) : Except Fault Int :=
  if digitsValue ds ≤ intMax then .ok (digitsValue ds) else .error .outOfRange

/-- The successive matches of the regular expression `(\d+):` found by
`std::sregex_iterator`, as their first capture groups.  `run` is the run of
digits read immediately before the current character: a match is a maximal run
of digits followed by a colon, and the search resumes after the colon. -/
def digitsColonMatches (run : Str) : Str → List Str
  | [] => []
  | c :: cs =>
    if c.isDigit then digitsColonMatches (run ++ [c]) cs
    else if c = ':' ∧ run ≠ [] then run :: digitsColonMatches [] cs
    else digitsColonMatches [] cs

/-- The loop of `getMutationPositions` over the matches: `std::stoi` of each
capture is appended to `positions`; the first conversion that throws ends the
function. -/
def stoiAll : List Str → Except Fault (List Int)
  | [] => .ok []
  | ds :: rest =>
    match stoi ds with
    | .error e => .error e
    | .ok v =>
      match stoiAll rest with
      | .error e => .error e
      | .ok vs => .ok (v :: vs)

/-- The function `getMutationPositions`: `std::stoi` of the digits of every
match of `(\d+):` in the field. -/
def getMutationPositions (field : Str) : Except Fault (List Int) :=
  stoiAll (digitsColonMatches [] field)

/-- The C function `isspace` in the default locale. -/
def isspace (c : Char) : Bool :=
  c = ' ' || c = '\t' || c = '\n' || c = '\x0b' || c = '\x0c' || c = '\r'

/-- The optional sign of a `%d` conversion: whether it is `-`, and the input
after it. -/
def scanSign : Str → Bool × Str
  | '-' :: r => (true, r)
  | '+' :: r => (false, r)
  | s => (false, s)

/-- One `%d` conversion of `sscanf`: white space is skipped, then an optional
sign and at least one digit are read.  The result is the value and the rest of
the input, `none` on a matching failure. -/
def scanInt (s : Str) : Option (Int × Str) :=
  let signed := scanSign (s.dropWhile isspace)
  let ds := signed.2.takeWhile Char.isDigit
  if ds = [] then none
  else some (if signed.1 then - (digitsValue ds : Int) else (digitsValue ds : Int),
    signed.2.dropWhile Char.isDigit)

/-- A literal character of a `sscanf` format: it must be the next character of
the input. -/
def scanChar (c : Char) : Str → Option Str
  | [] => none
  | d :: r => if d = c then some r else none

/-- The call `sscanf(name, "%d-%d-%d-%d", &pos, &len, &plus, &minus)`: the four
values when it returns 4, `none` when it returns anything else.  Input after
the fourth number is not looked at. -/
def sscanfName (primerName : Str) : Option (Int × Int × Int × Int) :=
  match scanInt primerName with
  | none => none
  | some (pos, s1) =>
    match scanChar '-' s1 with
    | none => none
    | some s2 =>
      match scanInt s2 with
      | none => none
      | some (len, s3) =>
        match scanChar '-' s3 with
        | none => none
        | some s4 =>
          match scanInt s4 with
          | none => none
          | some (plus, s5) =>
            match scanChar '-' s5 with
            | none => none
            | some s6 =>
              match scanInt s6 with
              | none => none
              | some (minus, _) => some (pos, len, plus, minus)

/-! ## Genome registries -/

/-- The name `loadGenomeIds` derives from one line of a genome list: a leading
`>` is removed, the text before the first space is kept, and at most 300
characters of it. -/
def genomeName (line : Str) : Str :=
  let line1 := if line.head? = some '>' then line.drop 1 else line
  let name := line1.takeWhile (fun c => c ≠ ' ')
  if name.length > 300 then name.take 300 else name

/-- The state of the loop of `loadGenomeIds`. -/
structure LoadState where
  result : GenomeMap
  index : Nat
  names : List Str
  deriving DecidableEq, Repr

/-- One iteration of the loop of `loadGenomeIds`. -/
def loadGenomeIdsStep (st : LoadState) (line : Str) : LoadState :=
  let name := genomeName line
  if st.result.count name then st
  else { result := st.result.assign name st.index, index := st.index + 1,
         names := st.names ++ [name] }

/-- The function `loadGenomeIds(file_path, names)`; `file` is the content of
the file at `file_path`, `none` when it cannot be opened.  The result is the
returned map and the final value of `names`. -/
def loadGenomeIds (file : Option Str) (names : List Str) :
    Except Fault (GenomeMap × List Str) :=
  match file with
  | none => .error .runtimeError
  | some content =>
    let st := (getlines content).foldl loadGenomeIdsStep
      { result := GenomeMap.empty, index := 0, names := names }
    .ok (st.result, st.names)

/-! ## The application state -/

/-- One row of an output file: the six tab-separated columns. -/
structure Row where
  pos : Int
  len : Int
  genomeIndex : Nat
  sequenceRead : Str
  strandMatchPlus : Int
  strandMatchMinus : Int
  deriving DecidableEq, Repr

/-- The members of `struct App`.  An output stream is `none` while its pointer
is null, and otherwise holds the rows written to its file. -/
structure App where
  m_cfg : Config
  m_refSequence : Str
  m_bowtieIndexPaths : List Str
  m_targetGenomeNames : List Str
  m_targetGenomeNameToIndex : GenomeMap
  m_backgroundGenomeNameToIndex : GenomeMap
  m_primerType : PrimerType
  m_commonOut : Option (List Row)
  m_specialOut : Option (List Row)
  deriving DecidableEq, Repr

/-- The files the program reads: the content at each path, `none` for a path
that cannot be opened. -/
abbrev Files := Str → Option Str

/-- The state of a default-constructed `App` after `parseCliArgs` stored the
configuration. -/
def App.init (cfg : Config) (indexPaths : List Str) : App :=
  { m_cfg := cfg, m_refSequence := [], m_bowtieIndexPaths := indexPaths,
    m_targetGenomeNames := [], m_targetGenomeNameToIndex := GenomeMap.empty,
    m_backgroundGenomeNameToIndex := GenomeMap.empty, m_primerType := PrimerType.inner,
    m_commonOut := none, m_specialOut := none }

/-- The method `App::loadTargetList`. -/
def App.loadTargetList (files : Files) (app : App) : Except Fault App :=
  if app.m_cfg.common_file = [] then
    .ok { app with m_targetGenomeNameToIndex := GenomeMap.empty }
  else
    match loadGenomeIds (files app.m_cfg.common_file) app.m_targetGenomeNames with
    | .error e => .error e
    | .ok (ids, names) =>
      .ok { app with m_targetGenomeNameToIndex := ids, m_targetGenomeNames := names }

/-- The method `App::loadBackgroundList`: the map it loads is held in the local
variable `special_ids` and no member of the application is assigned. -/
def App.loadBackgroundList (files : Files) (app : App) : Except Fault App :=
  if app.m_cfg.special_file = [] then .ok app
  else
    match loadGenomeIds (files app.m_cfg.special_file) [] with
    | .error e => .error e
    | .ok _ => .ok app

/-- The part of `App::alignPrimers(primerType)` that records the primer type
and opens the output files of the pass. -/
def App.openOutputs (primerType : PrimerType) (app : App) : App :=
  let app1 := { app with m_primerType := primerType }
  let app2 := if app1.m_cfg.common_file ≠ [] then { app1 with m_commonOut := some [] } else app1
  if app2.m_cfg.special_file ≠ [] ∨ app2.m_cfg.left = true then
    { app2 with m_specialOut := some [] }
  else app2

/-! ## The classifier -/

/-- The `int` the compiled code holds for an arithmetic result whose exact value
is `x`: the 32-bit two's complement representative of `x`. -/
def wrapInt (x : Int) : Int := (x + 2147483648) % 4294967296 - 2147483648

/-- The loop over `mutationPositions` that sets the flags `begin` and `stop`;
the result is `(begin, stop)`.  The difference `len - 5` is computed in `int`. -/
def clampFlags (len : Int) (mutationPositions : List Int) : Bool × Bool :=
  mutationPositions.foldl
    (fun flags mutPos =>
      (if mutPos < 5 then true else flags.1,
       if mutPos ≥ wrapInt (len - 5) then true else flags.2))
    (false, false)

/-- The assignment `(cond ? strandMatchPlus : strandMatchMinus) = 1` on the
pair `(strandMatchPlus, strandMatchMinus)`. -/
def setColumn (cond : Bool) (m : Int × Int) : Int × Int :=
  if cond then (1, m.2) else (m.1, 1)

/-- The computation of `(strandMatchPlus, strandMatchMinus)` from the primer
type, the decoded flags, the clamp flags and the strand field. -/
def strandMatch (primerType : PrimerType) (plus minus : Int) (begin stop : Bool)
    (strand : Str) : Int × Int :=
  let m0 : Int × Int := (0, 0)
  if primerType = PrimerType.inner then
    let m1 := if plus ≠ 0 ∧ begin = false then setColumn (strand = ['+']) m0 else m0
    if minus ≠ 0 ∧ stop = false then setColumn (strand ≠ ['+']) m1 else m1
  else
    let m1 := if plus ≠ 0 ∧ stop = false then setColumn (strand = ['+']) m0 else m0
    if minus ≠ 0 ∧ begin = false then setColumn (strand ≠ ['+']) m1 else m1

/-- What the loop body of `processBowtieOutput` has decoded from a line when it
reaches the disposition of the record. -/
structure Record where
  pos : Int
  len : Int
  genomeId : Str
  sequenceRead : Str
  mismatches : Int
  strandMatchPlus : Int
  strandMatchMinus : Int
  deriving DecidableEq, Repr

/-- The value of the local variable `genomeId` for a line: its third field, cut
to 300 characters. -/
def genomeIdOf (line : Str) : Str := ((split line '\t').getD 2 []).take 300

/-- The first part of the loop body of `processBowtieOutput`, up to the strand
filter: `ok none` when the line is skipped by a `continue`. -/
def decodeRecord (primerType : PrimerType) (line : Str) : Except Fault (Option Record) :=
  let fields := split line '\t'
  if fields.length < 5 then .ok none
  else
    let primerName := fields.getD 0 []
    let strand := fields.getD 1 []
    let genomeId := genomeIdOf line
    let sequenceRead := fields.getD 3 []
    let mismatchField := fields.getD 4 []
    let mismatches := countMismatches mismatchField
    match sscanfName primerName with
    | none => .ok none
    | some (pos, len, plus, minus) =>
      match getMutationPositions mismatchField with
      | .error e => .error e
      | .ok mutationPositions =>
        let flags := clampFlags len mutationPositions
        let m := strandMatch primerType plus minus flags.1 flags.2 strand
        if m.1 + m.2 = 0 then .ok none
        else .ok (some { pos := pos, len := len, genomeId := genomeId,
                         sequenceRead := sequenceRead, mismatches := mismatches,
                         strandMatchPlus := m.1, strandMatchMinus := m.2 })

/-- The row the classifier writes for a record and a genome id. -/
def Record.row (r : Record) (genomeIndex : Nat) : Row :=
  { pos := r.pos, len := r.len, genomeIndex := genomeIndex, sequenceRead := r.sequenceRead,
    strandMatchPlus := r.strandMatchPlus, strandMatchMinus := r.strandMatchMinus }

/-- The statement `*out << row`: the row is appended to an open stream. -/
def writeRow (out : Option (List Row)) (row : Row) : Except Fault (Option (List Row)) :=
  match out with
  | none => .error .nullStream
  | some rows => .ok (some (rows ++ [row]))

/-- The condition `hasTargetList && m_targetGenomeNameToIndex.count(genomeId)`:
a target list is configured and the reference id is one of its genomes. -/
def App.isKnownTarget (app : App) (genomeId : Str) : Bool :=
  let hasTargetList : Bool := app.m_cfg.common_file ≠ []
  hasTargetList && app.m_targetGenomeNameToIndex.count genomeId

/-- The second part of the loop body of `processBowtieOutput`: the disposition
of a record that passed the strand filter. -/
def classify (app : App) (r : Record) : Except Fault App :=
  if app.isKnownTarget r.genomeId then
    if r.mismatches ≤ app.m_cfg.mis_c then
      match app.m_targetGenomeNameToIndex.atKey r.genomeId with
      | none => .error .outOfRange
      | some id =>
        match writeRow app.m_commonOut (r.row id) with
        | .error e => .error e
        | .ok out => .ok { app with m_commonOut := out }
    else .ok app
  else if app.m_primerType = PrimerType.loop then .ok app
  else
    let hasExplicitBackgroundList : Bool := app.m_cfg.special_file ≠ []
    if hasExplicitBackgroundList then
      match app.m_backgroundGenomeNameToIndex.atKey r.genomeId with
      | none => .ok app
      | some id =>
        match writeRow app.m_specialOut (r.row id) with
        | .error e => .error e
        | .ok out => .ok { app with m_specialOut := out }
    else if app.m_cfg.left then
      match app.m_backgroundGenomeNameToIndex.atKey r.genomeId with
      | some id =>
        match writeRow app.m_specialOut (r.row id) with
        | .error e => .error e
        | .ok out => .ok { app with m_specialOut := out }
      | none =>
        let backgroundGenomeIndex := app.m_backgroundGenomeNameToIndex.size
        let app1 := { app with m_backgroundGenomeNameToIndex :=
          app.m_backgroundGenomeNameToIndex.assign r.genomeId backgroundGenomeIndex }
        match writeRow app1.m_specialOut (r.row backgroundGenomeIndex) with
        | .error e => .error e
        | .ok out => .ok { app1 with m_specialOut := out }
    else .ok app

/-- The loop body of `processBowtieOutput` on one line. -/
def processLine (app : App) (line : Str) : Except Fault App :=
  match decodeRecord app.m_primerType line with
  | .error e => .error e
  | .ok none => .ok app
  | .ok (some r) => classify app r

/-- The loop of `processBowtieOutput` over the lines of the file. -/
def processLines (app : App) : List Str → Except Fault App
  | [] => .ok app
  | line :: rest =>
    match processLine app line with
    | .error e => .error e
    | .ok app1 => processLines app1 rest

/-- The method `App::processBowtieOutput(bowtiePath)`; `file` is the content of
the file at `bowtiePath`, `none` when it cannot be opened. -/
def App.processBowtieOutput (app : App) (file : Option Str) : Except Fault App :=
  match file with
  | none => .error .runtimeError
  | some content => processLines app (getlines content)

/-- The output streams a pass needs are open: the common stream when a target
list is configured, the specific stream when a background list is configured
or `--left` is set. -/
def App.StreamsOpen (app : App) : Prop :=
  (app.m_cfg.common_file ≠ [] → app.m_commonOut.isSome = true) ∧
  (app.m_cfg.special_file ≠ [] ∨ app.m_cfg.left = true → app.m_specialOut.isSome = true)

/-! ## The candidate encoder -/

/-- A literal stretch of a regular expression at the start of the input: the
rest of the input when the input starts with it. -/
def matchLiteral : Str → Str → Option Str
  | [], s => some s
  | _ :: _, [] => none
  | c :: cs, d :: ds => if d = c then matchLiteral cs ds else none

/-- The group `(\d+)` of the region pattern at the start of the input; in the
pattern it is followed by a tab, so it can only match the whole run of digits
found there.  The result is the run and the rest of the input. -/
def matchDigits (s : Str) : Option (Str × Str) :=
  if s.takeWhile Char.isDigit = [] then none
  else some (s.takeWhile Char.isDigit, s.dropWhile Char.isDigit)

/-- The group `(\d)` at the start of the input. -/
def matchDigit : Str → Option (Char × Str)
  | [] => none
  | c :: r => if c.isDigit then some (c, r) else none

/-- A match of the pattern `pos:(\d+)\tlength:(\d+)\t\+:(\d)\t-:(\d)` that
starts at the start of the input: its four groups. -/
def regionMatchAt (s : Str) : Option (Str × Str × Char × Char) :=
  match matchLiteral "pos:".toList s with
  | none => none
  | some s1 =>
    match matchDigits s1 with
    | none => none
    | some (m1, s2) =>
      match matchLiteral "\tlength:".toList s2 with
      | none => none
      | some s3 =>
        match matchDigits s3 with
        | none => none
        | some (m2, s4) =>
          match matchLiteral "\t+:".toList s4 with
          | none => none
          | some s5 =>
            match matchDigit s5 with
            | none => none
            | some (m3, s6) =>
              match matchLiteral "\t-:".toList s6 with
              | none => none
              | some s7 =>
                match matchDigit s7 with
                | none => none
                | some (m4, _) => some (m1, m2, m3, m4)

/-- The call `std::regex_search(line, match, ...)` with the region pattern: the
groups of the leftmost match, `none` when the line has no match. -/
def regionSearch : Str → Option (Str × Str × Char × Char)
  | [] => regionMatchAt []
  | c :: cs =>
    match regionMatchAt (c :: cs) with
    | some m => some m
    | none => regionSearch cs

/-- The body of the encoder loop of `App::alignPrimers` on one line of the
region file: `ok none` when the line is reported and skipped, otherwise the
header name and the sequence of the FASTA record written.  `std::stoi` and
`substr` throw `std::out_of_range`. -/
def encodeLine (refSequence : Str) (line : Str) : Except Fault (Option (Str × Str)) :=
  match regionSearch line with
  | none => .ok none
  | some (m1, m2, m3, m4) =>
    match stoi m1 with
    | .error e => .error e
    | .ok pos =>
      match stoi m2 with
      | .error e => .error e
      | .ok len =>
        let name := m1 ++ ['-'] ++ m2 ++ ['-'] ++ [m3] ++ ['-'] ++ [m4]
        if pos.toNat > refSequence.length then .error .outOfRange
        else .ok (some (name, (refSequence.drop pos.toNat).take len.toNat))

/-- A region line `pos:<P>\tlength:<L>\t+:<f>\t-:<g>`. -/
def regionLine (P L : Str) (f g : Char) : Str :=
  "pos:".toList ++ P ++ "\tlength:".toList ++ L ++ "\t+:".toList ++ [f] ++ "\t-:".toList ++ [g]

/-! ## Well-formed mismatch fields -/

/-- Every colon of the field is immediately preceded by a decimal digit;
`prevIsDigit` tells whether the character before the field is a digit. -/
def colonsFollowDigits (prevIsDigit : Bool) : Str → Bool
  | [] => true
  | c :: cs => (c != ':' || prevIsDigit) && colonsFollowDigits c.isDigit cs

/-! ## The decision table of the design document -/

/-- The "plus-orientation eligible" column of the table of the design document:
for Inner the plus flag is set and the alignment is not `nearStart`, for Outer
and Loop the plus flag is set and the alignment is not `nearEnd`. -/
def specPlusEligible (primerType : PrimerType) (plusFlag : Int) (nearStart nearEnd : Bool) :
    Prop :=
  match primerType with
  | PrimerType.inner => plusFlag ≠ 0 ∧ nearStart = false
  | _ => plusFlag ≠ 0 ∧ nearEnd = false

/-- The "minus-orientation eligible" column of the table of the design
document: for Inner the minus flag is set and the alignment is not `nearEnd`,
for Outer and Loop the minus flag is set and the alignment is not `nearStart`. -/
def specMinusEligible (primerType : PrimerType) (minusFlag : Int) (nearStart nearEnd : Bool) :
    Prop :=
  match primerType with
  | PrimerType.inner => minusFlag ≠ 0 ∧ nearEnd = false
  | _ => minusFlag ≠ 0 ∧ nearStart = false

/-! ## The pass driver -/

/-- The rows `(m_targetGenomeNames[i], i)` written to `common_list.txt`; `i` is
the index of the first name of the list. -/
def commonListFrom (i : Nat) : List Str → List (Str × Nat)
  | [] => []
  | name :: rest => (name, i) :: commonListFrom (i + 1) rest

/-- The content of `common_list.txt`, as its rows. -/
def commonListRows (names : List Str) : List (Str × Nat) := commonListFrom 0 names

/-- The encoder loop of `App::alignPrimers` over the lines of the region file:
the records written to the FASTA file. -/
def encodeLines (refSequence : Str) : List Str → Except Fault (List (Str × Str))
  | [] => .ok []
  | line :: rest =>
    match encodeLine refSequence line with
    | .error e => .error e
    | .ok written =>
      match encodeLines refSequence rest with
      | .error e => .error e
      | .ok records =>
        match written with
        | none => .ok records
        | some record => .ok (record :: records)

/-- The statements `m_commonOut.reset(); m_specialOut.reset();`. -/
def App.resetOutputs (app : App) : App :=
  { app with m_commonOut := none, m_specialOut := none }

/-- The loop of `App::alignPrimers(primerType)` over the index paths; `bowtie`
gives for an index path the content of the file `runBowtie` left at
`bowtieOutputPath`, `none` when it cannot be opened. -/
def processShards (bowtie : Str → Option Str) (app : App) : List Str → Except Fault App
  | [] => .ok app
  | indexPath :: rest =>
    match app.processBowtieOutput (bowtie indexPath) with
    | .error e => .error e
    | .ok app1 => processShards bowtie app1 rest

/-- The method `App::alignPrimers(primerType)`; `regionFile` is the content of
the region file of the primer type, `none` when it cannot be opened (no line is
read then). -/
def App.alignPrimers (regionFile : Option Str) (bowtie : Str → Option Str)
    (primerType : PrimerType) (app : App) : Except Fault App :=
  match encodeLines app.m_refSequence ((regionFile.map getlines).getD []) with
  | .error e => .error e
  | .ok _ =>
    match processShards bowtie (app.openOutputs primerType) app.m_bowtieIndexPaths with
    | .error e => .error e
    | .ok app1 => .ok app1.resetOutputs

/-- The method `App::alignPrimers()`: the Inner pass, the Outer pass, and the
Loop pass when `--loop` is set. -/
def App.alignPrimersAll (regions : PrimerType → Option Str)
    (bowtie : PrimerType → Str → Option Str) (app : App) : Except Fault App :=
  match app.alignPrimers (regions PrimerType.inner) (bowtie PrimerType.inner)
      PrimerType.inner with
  | .error e => .error e
  | .ok app1 =>
    match app1.alignPrimers (regions PrimerType.outer) (bowtie PrimerType.outer)
        PrimerType.outer with
    | .error e => .error e
    | .ok app2 =>
      if app2.m_cfg.loop then
        app2.alignPrimers (regions PrimerType.loop) (bowtie PrimerType.loop) PrimerType.loop
      else .ok app2

/-- The states the application passes through after the state `start`: any
number of steps, each one a line processed by the classifier, the opening of the
outputs of a pass, or the reset of the streams at the end of a pass. -/
inductive App.Reaches (start : App) : App → Prop where
  | refl : App.Reaches start start
  | line {app app1 : App} (l : Str) :
      App.Reaches start app → processLine app l = .ok app1 → App.Reaches start app1
  | openOutputs {app : App} (primerType : PrimerType) :
      App.Reaches start app → App.Reaches start (app.openOutputs primerType)
  | resetOutputs {app : App} :
      App.Reaches start app → App.Reaches start app.resetOutputs

/-! ## Registry invariants -/

/-- The entries of a registry are in insertion order with distinct names, and
the entry inserted as number `i` has the id `i`. -/
def GenomeMap.InsertionOrdered (m : GenomeMap) : Prop :=
  (m.entries.map Prod.fst).Nodup ∧ m.entries.map Prod.snd = List.range m.entries.length

/-- The names of a list in the order of their first occurrence; `seen` holds
the names found so far. -/
def firstOccurrencesFrom (seen : List Str) : List Str → List Str
  | [] => seen
  | name :: rest =>
    if name ∈ seen then firstOccurrencesFrom seen rest
    else firstOccurrencesFrom (seen ++ [name]) rest

/-- The distinct names of a list, in the order of their first occurrence. -/
def firstOccurrences (names : List Str) : List Str := firstOccurrencesFrom [] names

/-! ## Candidates, genomes and rows -/

/-- The canonical name of a genome-list line with "the first space" for the end
of the token: one leading `>` is removed, the text before the first space is
kept, and it is cut to 300 characters. -/
def specCanonicalName (line : Str) : Str :=
  let stripped :=
    match line with
    | '>' :: rest => rest
    | _ => line
  (stripped.takeWhile (fun c => c ≠ ' ')).take 300

/-! ## Concrete inputs used to exercise the statements -/

/-- A configuration with the target list `t.txt`, no background handling and
one mismatch allowed in a target. -/
def targetCfg : Config :=
  { common_file := "t.txt".toList, special_file := [], mis_c := 1, mis_s := 2,
    left := false, loop := false }

/-- An application state of the Inner pass under `targetCfg` whose target
registry knows the genome `tgt` with id 3. -/
def targetApp : App :=
  { (App.init targetCfg []).openOutputs PrimerType.inner with
    m_targetGenomeNames := ["tgt".toList],
    m_targetGenomeNameToIndex := ⟨[("tgt".toList, 3)]⟩ }

/-- The state `targetApp` with discovery mode (`--left`) switched on and the
specific stream open. -/
def targetDiscoveryApp : App :=
  { targetApp with
    m_cfg := { targetCfg with left := true }
    m_specialOut := some [] }

/-- An alignment of the candidate `10-20-1-0` to `tgt` on the forward strand
with one mismatch, at offset 7. -/
def targetLine : Str := "10-20-1-0\t+\ttgt\tACGT\t7:A>C".toList

/-- The record decoded from `targetLine`. -/
def targetRecord : Record :=
  { pos := 10, len := 20, genomeId := "tgt".toList, sequenceRead := "ACGT".toList,
    mismatches := 1, strandMatchPlus := 1, strandMatchMinus := 0 }

/-- A configuration with the explicit background list `bg.txt` and no target
list. -/
def bgCfg : Config :=
  { common_file := [], special_file := "bg.txt".toList, mis_c := 0, mis_s := 2,
    left := false, loop := false }

/-- The files of the background example: `bg.txt` lists the one genome `bgA`. -/
def bgFiles : Files := fun path => if path = "bg.txt".toList then some "bgA\n".toList else none

/-- An alignment of the candidate `10-20-1-0` to `bgA` on the forward strand
without mismatches. -/
def bgLine : Str := "10-20-1-0\t+\tbgA\tACGT\t".toList

/-- The record decoded from `bgLine`. -/
def bgRecord : Record :=
  { pos := 10, len := 20, genomeId := "bgA".toList, sequenceRead := "ACGT".toList,
    mismatches := 0, strandMatchPlus := 1, strandMatchMinus := 0 }

/-- A configuration in discovery mode: `--left`, no background list, the target
list `t.txt`. -/
def discoveryCfg : Config :=
  { common_file := "t.txt".toList, special_file := [], mis_c := 1, mis_s := 2,
    left := true, loop := false }

/-- An application state of the Outer pass in discovery mode whose target
registry knows `tgt` and whose background registry already holds two genomes. -/
def discoveryApp : App :=
  { (App.init discoveryCfg []).openOutputs PrimerType.outer with
    m_targetGenomeNames := ["tgt".toList]
    m_targetGenomeNameToIndex := ⟨[("tgt".toList, 0)]⟩
    m_backgroundGenomeNameToIndex := ⟨[("bg0".toList, 0), ("bg1".toList, 1)]⟩ }

/-- An alignment of the candidate `10-20-1-0` to the unseen genome `new`. -/
def discoveryLine1 : Str := "10-20-1-0\t+\tnew\tACGT\t".toList

/-- The record decoded from `discoveryLine1` in the Outer pass. -/
def discoveryRecord1 : Record :=
  { pos := 10, len := 20, genomeId := "new".toList, sequenceRead := "ACGT".toList,
    mismatches := 0, strandMatchPlus := 1, strandMatchMinus := 0 }

/-- An alignment of the candidate `40-18-0-1` to the same genome `new`, on the
reverse strand. -/
def discoveryLine2 : Str := "40-18-0-1\t-\tnew\tTTGA\t7:A>C".toList

/-- The record decoded from `discoveryLine2` in the Outer pass. -/
def discoveryRecord2 : Record :=
  { pos := 40, len := 18, genomeId := "new".toList, sequenceRead := "TTGA".toList,
    mismatches := 1, strandMatchPlus := 1, strandMatchMinus := 0 }

/-- The state `discoveryApp` in the Loop pass. -/
def loopApp : App := { discoveryApp with m_primerType := PrimerType.loop }

/-- A genome list with three lines: a FASTA header, a bare name, and the first
name again. -/
def listContent : Str := ">g1 first genome\ng2\ng1\n".toList

/-- A reference sequence of 34 bases. -/
def reference34 : Str := "ACGTACGTACGTACGTACGTACGTACGTACGTAC".toList

/-- An alignment line whose mismatch field carries an offset beyond the range
of `int`. -/
def overflowLine : Str := "10-20-1-0\t+\tnew\tACGT\t99999999999:A>C".toList

/-- An alignment line whose candidate name has five tokens. -/
def fiveTokenLine : Str := "1-2-1-0-5\t+\tnew\tACGT\t".toList

/-- An alignment line whose candidate name has three tokens. -/
def threeTokenLine : Str := "1-2-1\t+\tnew\tACGT\t".toList

/-- An alignment line of a candidate with only the plus flag and a mismatch at
offset 2, near its start. -/
def nearStartLine : Str := "10-20-1-0\t+\tnew\tACGT\t2:A>C".toList

/-- The state in which a discovery run starts: the target registry knows `tgt`,
the background registry is empty and no stream is open. -/
def discoveryStart : App :=
  { App.init discoveryCfg ["index".toList] with
    m_targetGenomeNames := ["tgt".toList]
    m_targetGenomeNameToIndex := (⟨[("tgt".toList, 0)]⟩ : GenomeMap) }

/-- An alignment of the candidate `40-18-0-1` to a second unseen genome. -/
def discoveryLine3 : Str := "40-18-0-1\t-\tother\tTTGA\t7:A>C".toList

/-- The state after the Inner pass was opened from `discoveryStart` and
`discoveryLine1` was processed. -/
def discoveryMid : App :=
  { discoveryStart.openOutputs PrimerType.inner with
    m_backgroundGenomeNameToIndex := (⟨[("new".toList, 0)]⟩ : GenomeMap)
    m_specialOut := some [discoveryRecord1.row 0] }

/-- The state after the Inner pass was closed at `discoveryMid`, the Outer pass
was opened and `discoveryLine3` was processed. -/
def discoveryEnd : App :=
  { discoveryMid.resetOutputs.openOutputs PrimerType.outer with
    m_backgroundGenomeNameToIndex :=
      (⟨[("new".toList, 0), ("other".toList, 1)]⟩ : GenomeMap)
    m_specialOut := some [(⟨40, 18, 1, "TTGA".toList, 1, 0⟩ : Row)] }

/-! ## Auxiliary facts -/

theorem App.openOutputs_streamsOpen (primerType : PrimerType) (app : App) :
    (app.openOutputs primerType).StreamsOpen := by
  unfold App.openOutputs App.StreamsOpen
  by_cases hc : app.m_cfg.common_file = [] <;>
    by_cases hs : app.m_cfg.special_file = [] <;>
    cases hl : app.m_cfg.left <;> simp [hc, hs, hl]

theorem processLine_of_decode {app : App} {line : Str} {r : Record}
    (h : decodeRecord app.m_primerType line = .ok (some r)) :
    processLine app line = classify app r := by
  simp [processLine, h]

theorem processLine_of_skip {app : App} {line : Str}
    (h : decodeRecord app.m_primerType line = .ok none) :
    processLine app line = .ok app := by
  simp [processLine, h]

theorem GenomeMap.atKey_isSome_of_count {m : GenomeMap} {k : Str} (h : m.count k = true) :
    ∃ id, m.atKey k = some id := by
  unfold GenomeMap.count at h
  exact Option.isSome_iff_exists.mp h

theorem GenomeMap.findEntry_append_of_none {k : Str} {v : Nat} :
    ∀ {es : List (Str × Nat)}, GenomeMap.findEntry k es = none →
      GenomeMap.findEntry k (es ++ [(k, v)]) = some v
  | [], _ => by simp [GenomeMap.findEntry]
  | (k2, v2) :: es, h => by
    by_cases hk : k2 = k
    · simp [GenomeMap.findEntry, hk] at h
    · simp only [GenomeMap.findEntry, hk, if_false] at h
      simp only [List.cons_append, GenomeMap.findEntry, hk, if_false]
      exact GenomeMap.findEntry_append_of_none h

theorem GenomeMap.assign_of_absent {m : GenomeMap} {k : Str} (v : Nat)
    (h : m.atKey k = none) :
    (m.assign k v).atKey k = some v ∧ (m.assign k v).size = m.size + 1 ∧
      (m.assign k v).entries = m.entries ++ [(k, v)] := by
  have hc : m.count k = false := by simp [GenomeMap.count, h]
  unfold GenomeMap.assign
  simp only [hc, Bool.false_eq_true, if_false]
  refine ⟨?_, ?_, trivial⟩
  · exact GenomeMap.findEntry_append_of_none h
  · simp [GenomeMap.size]

theorem decodeRecord_eq_some {primerType : PrimerType} {line : Str} {r : Record}
    (h : decodeRecord primerType line = .ok (some r)) :
    ∃ pos len plus minus mutationPositions,
      5 ≤ (split line '\t').length ∧
      sscanfName ((split line '\t').getD 0 []) = some (pos, len, plus, minus) ∧
      getMutationPositions ((split line '\t').getD 4 []) = .ok mutationPositions ∧
      r.pos = pos ∧ r.len = len ∧
      r.genomeId = genomeIdOf line ∧
      r.sequenceRead = (split line '\t').getD 3 [] ∧
      r.mismatches = countMismatches ((split line '\t').getD 4 []) ∧
      (r.strandMatchPlus, r.strandMatchMinus) =
        strandMatch primerType plus minus (clampFlags len mutationPositions).1
          (clampFlags len mutationPositions).2 ((split line '\t').getD 1 []) ∧
      r.strandMatchPlus + r.strandMatchMinus ≠ 0 := by
  unfold decodeRecord at h
  simp only at h
  split at h
  · cases h
  · rename_i hlen
    split at h
    · cases h
    · rename_i pos len plus minus hname
      split at h
      · cases h
      · rename_i mutationPositions hmut
        split at h
        · cases h
        · rename_i hsum
          simp only [Except.ok.injEq, Option.some.injEq] at h
          subst h
          exact ⟨pos, len, plus, minus, mutationPositions, by omega, hname, hmut,
            rfl, rfl, rfl, rfl, rfl, rfl, hsum⟩

theorem App.loadBackgroundList_eq {files : Files} {app app1 : App}
    (h : app.loadBackgroundList files = .ok app1) : app1 = app := by
  unfold App.loadBackgroundList at h
  split at h
  · cases h; rfl
  · split at h
    · cases h
    · cases h; rfl

theorem clampFlags_foldl_fst (t : Int) :
    ∀ (offsets : List Int) (b s : Bool),
      (offsets.foldl (fun flags mutPos =>
        ((if mutPos < 5 then true else flags.1 : Bool),
         (if mutPos ≥ t then true else flags.2 : Bool))) (b, s)).1 = true ↔
        b = true ∨ ∃ o ∈ offsets, o < 5
  | [], b, s => by simp
  | o :: rest, b, s => by
    rw [List.foldl_cons, clampFlags_foldl_fst t rest]
    by_cases ho : o < 5 <;> simp [ho]

theorem clampFlags_foldl_snd (t : Int) :
    ∀ (offsets : List Int) (b s : Bool),
      (offsets.foldl (fun flags mutPos =>
        ((if mutPos < 5 then true else flags.1 : Bool),
         (if mutPos ≥ t then true else flags.2 : Bool))) (b, s)).2 = true ↔
        s = true ∨ ∃ o ∈ offsets, o ≥ t
  | [], b, s => by simp
  | o :: rest, b, s => by
    rw [List.foldl_cons, clampFlags_foldl_snd t rest]
    by_cases ho : o ≥ t
    · have ho2 : t ≤ o := ho
      simp [ho2]
    · have ho2 : ¬ t ≤ o := ho
      simp [ho2]

theorem wrapInt_of_int {x : Int} (hlo : -2147483648 ≤ x) (hhi : x ≤ 2147483647) :
    wrapInt x = x := by
  unfold wrapInt
  omega

theorem stoi_nonneg {ds : Str} {v : Int} (h : stoi ds = .ok v) : 0 ≤ v := by
  unfold stoi at h
  split at h
  · cases h; exact Int.ofNat_nonneg _
  · cases h

theorem stoiAll_nonneg : ∀ {captures : List Str} {offsets : List Int},
    stoiAll captures = .ok offsets → ∀ o ∈ offsets, 0 ≤ o
  | [], offsets, h => by
    simp only [stoiAll, Except.ok.injEq] at h
    subst h; simp
  | ds :: rest, offsets, h => by
    unfold stoiAll at h
    split at h
    · cases h
    · rename_i v hv
      split at h
      · cases h
      · rename_i vs hvs
        simp only [Except.ok.injEq] at h
        subst h
        intro o ho
        rcases List.mem_cons.mp ho with rfl | ho
        · exact stoi_nonneg hv
        · exact stoiAll_nonneg hvs o ho

theorem classify_discovery_known {app : App} {r : Record} {id : Nat} {out : List Row}
    (hspecial : app.m_cfg.special_file = []) (hleft : app.m_cfg.left = true)
    (hloop : app.m_primerType ≠ PrimerType.loop)
    (htarget : app.isKnownTarget r.genomeId = false)
    (hat : app.m_backgroundGenomeNameToIndex.atKey r.genomeId = some id)
    (hout : app.m_specialOut = some out) :
    classify app r = .ok { app with m_specialOut := some (out ++ [r.row id]) } := by
  simp [classify, htarget, hloop, hspecial, hleft, hat, hout, writeRow]

theorem classify_discovery_new {app : App} {r : Record} {out : List Row}
    (hspecial : app.m_cfg.special_file = []) (hleft : app.m_cfg.left = true)
    (hloop : app.m_primerType ≠ PrimerType.loop)
    (htarget : app.isKnownTarget r.genomeId = false)
    (hat : app.m_backgroundGenomeNameToIndex.atKey r.genomeId = none)
    (hout : app.m_specialOut = some out) :
    classify app r = .ok
      { app with
        m_backgroundGenomeNameToIndex :=
          app.m_backgroundGenomeNameToIndex.assign r.genomeId
            app.m_backgroundGenomeNameToIndex.size
        m_specialOut := some (out ++ [r.row app.m_backgroundGenomeNameToIndex.size]) } := by
  simp [classify, htarget, hloop, hspecial, hleft, hat, hout, writeRow]

theorem isDigit_ne_colon {c : Char} (h : c.isDigit = true) : c ≠ ':' := by
  rintro rfl
  exact absurd h (by decide)

theorem digitsColonMatches_length :
    ∀ (s run : Str) (b : Bool), (b = true ↔ run ≠ []) → colonsFollowDigits b s = true →
      (digitsColonMatches run s).length = s.count ':'
  | [], _, _, _, _ => by simp [digitsColonMatches]
  | c :: cs, run, b, hb, h => by
    simp only [colonsFollowDigits, Bool.and_eq_true, Bool.or_eq_true, bne_iff_ne] at h
    obtain ⟨hc, hrest⟩ := h
    unfold digitsColonMatches
    by_cases hd : c.isDigit = true
    · rw [if_pos hd, List.count_cons_of_ne (isDigit_ne_colon hd).symm]
      exact digitsColonMatches_length cs (run ++ [c]) c.isDigit (by simp [hd]) hrest
    · by_cases hcol : c = ':'
      · subst hcol
        have hrun : run ≠ [] := hb.mp (hc.resolve_left (by simp))
        rw [if_neg hd, if_pos ⟨rfl, hrun⟩, List.count_cons_self, List.length_cons]
        exact congrArg (· + 1)
          (digitsColonMatches_length cs [] (Char.isDigit ':') (by simp [hd]) hrest)
      · rw [if_neg hd, if_neg (fun hcon => hcol hcon.1), List.count_cons_of_ne (Ne.symm hcol)]
        have hfalse : c.isDigit = false := by simpa using hd
        exact digitsColonMatches_length cs [] c.isDigit (by simp [hfalse]) hrest

theorem stoiAll_length : ∀ {captures : List Str} {offsets : List Int},
    stoiAll captures = .ok offsets → offsets.length = captures.length
  | [], offsets, h => by
    simp only [stoiAll, Except.ok.injEq] at h
    subst h; rfl
  | ds :: rest, offsets, h => by
    unfold stoiAll at h
    split at h
    · cases h
    · split at h
      · cases h
      · rename_i vs hvs
        simp only [Except.ok.injEq] at h
        subst h
        simp [stoiAll_length hvs]

theorem stoi_of_le {ds : Str} (h : digitsValue ds ≤ intMax) :
    stoi ds = .ok (digitsValue ds : Int) := by
  simp [stoi, h]

theorem stoiAll_of_fit : ∀ (captures : List Str),
    (∀ ds ∈ captures, digitsValue ds ≤ intMax) → ∃ offsets, stoiAll captures = .ok offsets
  | [], _ => ⟨[], rfl⟩
  | ds :: rest, h => by
    obtain ⟨vs, hvs⟩ := stoiAll_of_fit rest (fun d hd => h d (List.mem_cons_of_mem _ hd))
    refine ⟨(digitsValue ds : Int) :: vs, ?_⟩
    simp [stoiAll, stoi_of_le (h ds (List.mem_cons_self _ _)), hvs]

theorem isDigit_not_isspace {c : Char} (h : c.isDigit = true) : isspace c = false := by
  cases hs : isspace c
  · rfl
  · simp only [isspace, Bool.or_eq_true, decide_eq_true_eq] at hs
    rcases hs with ((((rfl | rfl) | rfl) | rfl) | rfl) | rfl <;> exact absurd h (by decide)

theorem isDigit_ne_minus {c : Char} (h : c.isDigit = true) : c ≠ '-' := by
  rintro rfl
  exact absurd h (by decide)

theorem isDigit_ne_plus {c : Char} (h : c.isDigit = true) : c ≠ '+' := by
  rintro rfl
  exact absurd h (by decide)

theorem takeWhile_digits_append : ∀ (P rest : Str), (∀ c ∈ P, c.isDigit = true) →
    (∀ c ∈ rest.head?, c.isDigit = false) →
    (P ++ rest).takeWhile Char.isDigit = P ∧ (P ++ rest).dropWhile Char.isDigit = rest
  | [], [], _, _ => by simp
  | [], c :: r, _, hrest => by
    have hc : c.isDigit = false := hrest c (by simp)
    simp [List.takeWhile, List.dropWhile, hc]
  | c :: P, rest, hP, hrest => by
    have hc : c.isDigit = true := hP c (List.mem_cons_self _ _)
    obtain ⟨h1, h2⟩ := takeWhile_digits_append P rest
      (fun d hd => hP d (List.mem_cons_of_mem _ hd)) hrest
    simp [List.takeWhile, List.dropWhile, hc, h1, h2]

theorem matchLiteral_append : ∀ (lit s : Str), matchLiteral lit (lit ++ s) = some s
  | [], s => by simp [matchLiteral]
  | c :: cs, s => by simp [matchLiteral, matchLiteral_append cs s]

theorem matchDigits_append {P rest : Str} (hne : P ≠ []) (hP : ∀ c ∈ P, c.isDigit = true)
    (hrest : ∀ c ∈ rest.head?, c.isDigit = false) :
    matchDigits (P ++ rest) = some (P, rest) := by
  obtain ⟨h1, h2⟩ := takeWhile_digits_append P rest hP hrest
  simp [matchDigits, h1, h2, hne]

theorem regionMatchAt_regionLine {P L : Str} {f g : Char}
    (hPne : P ≠ []) (hP : ∀ c ∈ P, c.isDigit = true)
    (hLne : L ≠ []) (hL : ∀ c ∈ L, c.isDigit = true)
    (hf : f.isDigit = true) (hg : g.isDigit = true) :
    regionMatchAt (regionLine P L f g) = some (P, L, f, g) := by
  have e1 : regionLine P L f g = "pos:".toList ++ (P ++ ("\tlength:".toList ++
      (L ++ ("\t+:".toList ++ (f :: ("\t-:".toList ++ [g])))))) := by
    simp [regionLine]
  have d1 : matchDigits (P ++ ("\tlength:".toList ++
      (L ++ ("\t+:".toList ++ (f :: ("\t-:".toList ++ [g])))))) = some (P, _) :=
    matchDigits_append hPne hP (by intro c hc; cases hc; decide)
  have d2 : matchDigits (L ++ ("\t+:".toList ++ (f :: ("\t-:".toList ++ [g])))) =
      some (L, _) :=
    matchDigits_append hLne hL (by intro c hc; cases hc; decide)
  rw [e1]
  unfold regionMatchAt
  simp only [matchLiteral_append, d1, d2, matchDigit, hf, hg, if_true]

theorem regionSearch_of_matchAt {s : Str} {m : Str × Str × Char × Char}
    (h : regionMatchAt s = some m) : regionSearch s = some m := by
  cases s with
  | nil => simpa [regionSearch] using h
  | cons c cs => simp [regionSearch, h]

theorem scanInt_digits (P rest : Str) (hne : P ≠ []) (hP : ∀ c ∈ P, c.isDigit = true)
    (hrest : ∀ c ∈ rest.head?, c.isDigit = false) :
    scanInt (P ++ rest) = some ((digitsValue P : Int), rest) := by
  obtain ⟨c, P1, rfl⟩ := List.exists_cons_of_ne_nil hne
  have hc : c.isDigit = true := hP c (List.mem_cons_self _ _)
  obtain ⟨h1, h2⟩ := takeWhile_digits_append (c :: P1) rest hP hrest
  have hdrop : (c :: P1 ++ rest).dropWhile isspace = c :: P1 ++ rest := by
    simp [List.dropWhile, isDigit_not_isspace hc]
  have hsign : scanSign (c :: P1 ++ rest) = (false, c :: P1 ++ rest) := by
    unfold scanSign
    split
    · rename_i r heq
      simp only [List.cons_append, List.cons.injEq] at heq
      exact absurd heq.1 (isDigit_ne_minus hc)
    · rename_i r heq
      simp only [List.cons_append, List.cons.injEq] at heq
      exact absurd heq.1 (isDigit_ne_plus hc)
    · rfl
  simp only [List.cons_append] at h1 h2 hdrop hsign
  simp [scanInt, hdrop, hsign, h1, h2]

theorem sscanfName_encoded {P L : Str} {f g : Char}
    (hPne : P ≠ []) (hP : ∀ c ∈ P, c.isDigit = true)
    (hLne : L ≠ []) (hL : ∀ c ∈ L, c.isDigit = true)
    (hf : f.isDigit = true) (hg : g.isDigit = true) :
    sscanfName (P ++ ['-'] ++ L ++ ['-'] ++ [f] ++ ['-'] ++ [g]) =
      some ((digitsValue P : Int), (digitsValue L : Int), (digitsValue [f] : Int),
        (digitsValue [g] : Int)) := by
  have e1 : P ++ ['-'] ++ L ++ ['-'] ++ [f] ++ ['-'] ++ [g] =
      P ++ ('-' :: (L ++ ('-' :: ([f] ++ ('-' :: ([g] ++ [])))))) := by simp
  have s1 := scanInt_digits P ('-' :: (L ++ ('-' :: ([f] ++ ('-' :: ([g] ++ []))))))
    hPne hP (by intro c hc; cases hc; decide)
  have s2 := scanInt_digits L ('-' :: ([f] ++ ('-' :: ([g] ++ []))))
    hLne hL (by intro c hc; cases hc; decide)
  have s3 := scanInt_digits [f] ('-' :: ([g] ++ []))
    (by simp) (by simpa using hf) (by intro c hc; cases hc; decide)
  have s4 := scanInt_digits [g] []
    (by simp) (by simpa using hg) (by simp)
  rw [e1]
  unfold sscanfName
  simp only [s1, scanChar, if_true, s2, s3, s4]

/-! ## The claims -/

/-- C1 (a defect of the code, evaluated at a failing input).  With the
background list file `bg.txt` holding the one name `bgA`, `loadGenomeIds` gives
`bgA` the id 0, yet `App::loadBackgroundList` returns the application unchanged,
with an empty background registry, and the classifier of the Inner pass then
writes no row to the specific-output stream for an alignment to `bgA` that
passes the strand filter: the stream stays empty. -/
theorem C1_background_list_is_not_consulted :
    (loadGenomeIds (bgFiles bgCfg.special_file) []).map
        (fun loaded => loaded.1.atKey "bgA".toList) = .ok (some 0) ∧
      (App.init bgCfg []).loadBackgroundList bgFiles = .ok (App.init bgCfg []) ∧
      (App.init bgCfg []).m_backgroundGenomeNameToIndex = GenomeMap.empty ∧
      decodeRecord PrimerType.inner bgLine = .ok (some bgRecord) ∧
      ((App.init bgCfg []).openOutputs PrimerType.inner).isKnownTarget bgRecord.genomeId = false ∧
      processLine ((App.init bgCfg []).openOutputs PrimerType.inner) bgLine =
        .ok ((App.init bgCfg []).openOutputs PrimerType.inner) ∧
      ((App.init bgCfg []).openOutputs PrimerType.inner).m_specialOut = some [] := by
  refine ⟨by rfl, by rfl, by rfl, by rfl, by rfl, by rfl, by rfl⟩

/-- C2.  For every primer type, when a target list is configured and the
common stream is open, a record that passed the strand filter and whose
reference id has the id `id` in the target registry makes the classifier append
exactly the row (position, length, `id`, matched sequence, strandMatchPlus,
strandMatchMinus) to the common-output stream if its mismatch count (the number
of colons of the mismatch field) is at most `mis_c`, and leaves the whole state
unchanged otherwise; a count equal to `mis_c` is accepted and `mis_c + 1` is
rejected. -/
theorem C2_target_hit_threshold (app : App) (line : Str) (r : Record) (id : Nat)
    (out : List Row)
    (hdec : decodeRecord app.m_primerType line = .ok (some r))
    (hcfg : app.m_cfg.common_file ≠ [])
    (hid : app.m_targetGenomeNameToIndex.atKey r.genomeId = some id)
    (hout : app.m_commonOut = some out) :
    r.mismatches = countMismatches ((split line '\t').getD 4 []) ∧
    (r.mismatches ≤ app.m_cfg.mis_c →
      processLine app line = .ok { app with m_commonOut := some (out ++
        [{ pos := r.pos, len := r.len, genomeIndex := id, sequenceRead := r.sequenceRead,
           strandMatchPlus := r.strandMatchPlus,
           strandMatchMinus := r.strandMatchMinus }]) }) ∧
    (¬ r.mismatches ≤ app.m_cfg.mis_c → processLine app line = .ok app) ∧
    (r.mismatches = app.m_cfg.mis_c →
      ∃ app1, processLine app line = .ok app1 ∧
        app1.m_commonOut = some (out ++ [r.row id])) ∧
    (r.mismatches = app.m_cfg.mis_c + 1 → processLine app line = .ok app) := by
  have hknown : app.isKnownTarget r.genomeId = true := by
    simp [App.isKnownTarget, hcfg, GenomeMap.count, hid]
  have hacc : r.mismatches ≤ app.m_cfg.mis_c →
      processLine app line = .ok { app with m_commonOut := some (out ++ [r.row id]) } := by
    intro hle
    rw [processLine_of_decode hdec]
    simp [classify, hknown, hle, hid, hout, writeRow]
  have hrej : ¬ r.mismatches ≤ app.m_cfg.mis_c → processLine app line = .ok app := by
    intro hgt
    rw [processLine_of_decode hdec]
    simp [classify, hknown, hgt]
  obtain ⟨_, _, _, _, _, _, _, _, _, _, _, _, hmis, _, _⟩ := decodeRecord_eq_some hdec
  refine ⟨hmis, hacc, hrej, ?_, ?_⟩
  · intro heq
    exact ⟨_, hacc (le_of_eq heq), rfl⟩
  · intro heq
    exact hrej (by omega)

/-- The statement C2 at a concrete target hit with one mismatch and `mis_c = 1`:
the row `(10, 20, 3, ACGT, 1, 0)` is appended to the common stream. -/
theorem C2_target_hit_threshold_witness :
    targetApp.m_cfg.mis_c = 1 ∧ targetRecord.mismatches = 1 ∧
    processLine targetApp targetLine = .ok { targetApp with m_commonOut := some (
      [{ pos := 10, len := 20, genomeIndex := 3, sequenceRead := "ACGT".toList,
         strandMatchPlus := 1, strandMatchMinus := 0 }]) } :=
  ⟨by rfl, by rfl,
    (C2_target_hit_threshold targetApp targetLine targetRecord 3 [] (by rfl) (by decide)
      (by rfl) (by rfl)).2.1 (by decide)⟩

/-- C3.  Priority short-circuit: in every configuration whose streams are open,
for every primer type and every mismatch count, a line whose reference id is a
known target genome and whose decoding does not throw is processed without
fault and is fully handled by the target branch, accepted or not: the
specific-output stream and the background registry are unchanged, and so is
everything else but the common-output stream. -/
theorem C3_target_hit_short_circuit (app : App) (line : Str) (d : Option Record)
    (hopen : app.StreamsOpen)
    (hdec : decodeRecord app.m_primerType line = .ok d)
    (hknown : app.isKnownTarget (genomeIdOf line) = true) :
    ∃ app1, processLine app line = .ok app1 ∧
      app1.m_specialOut = app.m_specialOut ∧
      app1.m_backgroundGenomeNameToIndex = app.m_backgroundGenomeNameToIndex ∧
      app1 = { app with m_commonOut := app1.m_commonOut } := by
  cases d with
  | none => exact ⟨app, processLine_of_skip hdec, rfl, rfl, by cases app; rfl⟩
  | some r =>
    rw [processLine_of_decode hdec]
    obtain ⟨_, _, _, _, _, _, _, _, _, _, hgid, _⟩ := decodeRecord_eq_some hdec
    have hk : app.isKnownTarget r.genomeId = true := by rw [hgid]; exact hknown
    have hk2 := hk
    simp only [App.isKnownTarget, Bool.and_eq_true, decide_eq_true_eq] at hk2
    obtain ⟨id, hid⟩ := GenomeMap.atKey_isSome_of_count hk2.2
    obtain ⟨out, hout⟩ := Option.isSome_iff_exists.mp (hopen.1 hk2.1)
    by_cases hle : r.mismatches ≤ app.m_cfg.mis_c
    · exact ⟨{ app with m_commonOut := some (out ++ [r.row id]) },
        by simp [classify, hk, hle, hid, hout, writeRow], rfl, rfl, rfl⟩
    · exact ⟨app, by simp [classify, hk, hle], rfl, rfl, by cases app; rfl⟩

/-- The statement C3 at a concrete target hit in discovery mode: the specific
stream stays empty and the background registry stays empty. -/
theorem C3_target_hit_short_circuit_witness :
    ∃ app1, processLine targetDiscoveryApp targetLine = .ok app1 ∧
      app1.m_specialOut = some [] ∧
      app1.m_backgroundGenomeNameToIndex = GenomeMap.empty ∧
      app1 = { targetDiscoveryApp with m_commonOut := app1.m_commonOut } :=
  C3_target_hit_short_circuit targetDiscoveryApp targetLine (some targetRecord)
    ⟨fun _ => by rfl, fun _ => by rfl⟩ (by rfl) (by rfl)

/-- C4.  Strand-match derivation: for every primer type, decoded flags, clamp
flags and alignment strand `+` or `-`, with the eligibility of the two
orientations as in the table of the design document, the computed
strandMatchPlus is 1 exactly when plus is eligible on strand `+` or minus is
eligible on strand `-`, strandMatchMinus is 1 exactly when plus is eligible on
strand `-` or minus is eligible on strand `+`, and a column that is not 1 is 0. -/
theorem C4_strand_match_derivation (primerType : PrimerType) (plus minus : Int)
    (nearStart nearEnd : Bool) (strand : Str)
    (hstrand : strand = ['+'] ∨ strand = ['-']) :
    ((strandMatch primerType plus minus nearStart nearEnd strand).1 = 1 ↔
      (specPlusEligible primerType plus nearStart nearEnd ∧ strand = ['+']) ∨
      (specMinusEligible primerType minus nearStart nearEnd ∧ strand = ['-'])) ∧
    ((strandMatch primerType plus minus nearStart nearEnd strand).2 = 1 ↔
      (specPlusEligible primerType plus nearStart nearEnd ∧ strand = ['-']) ∨
      (specMinusEligible primerType minus nearStart nearEnd ∧ strand = ['+'])) ∧
    ((strandMatch primerType plus minus nearStart nearEnd strand).1 ≠ 1 →
      (strandMatch primerType plus minus nearStart nearEnd strand).1 = 0) ∧
    ((strandMatch primerType plus minus nearStart nearEnd strand).2 ≠ 1 →
      (strandMatch primerType plus minus nearStart nearEnd strand).2 = 0) := by
  rcases hstrand with rfl | rfl <;> cases primerType <;> cases nearStart <;> cases nearEnd <;>
    by_cases hp : plus = 0 <;> by_cases hm : minus = 0 <;>
    simp [strandMatch, setColumn, specPlusEligible, specMinusEligible, hp, hm]

/-- The statement C4 for an Inner candidate with only the plus flag, aligned on
the forward strand without a mismatch near its start: the columns are 1 and 0. -/
theorem C4_strand_match_derivation_witness :
    (strandMatch PrimerType.inner 1 0 false true ['+']).1 = 1 ∧
    (strandMatch PrimerType.inner 1 0 false true ['+']).2 = 0 :=
  have h := C4_strand_match_derivation PrimerType.inner 1 0 false true ['+'] (Or.inl rfl)
  ⟨h.1.mpr (Or.inl ⟨⟨by decide, rfl⟩, rfl⟩),
   h.2.2.2 (fun h1 => by
     rcases h.2.1.mp h1 with ⟨_, hs⟩ | ⟨⟨hz, _⟩, _⟩
     · exact absurd hs (by decide)
     · exact hz rfl)⟩

/-- C5, refuted as stated.  Under Outer, for a candidate of length 6 with the
plus flag set and a single mismatch at offset 2, the alignment is `nearStart`
and also `nearEnd`, and the plus orientation sets no output column: both
columns are 0 and the record is dropped by the strand filter. -/
theorem C5_outer_plus_not_eligible_when_near_end :
    getMutationPositions "2:A>C".toList = .ok [2] ∧
    clampFlags 6 [2] = (true, true) ∧
    strandMatch PrimerType.outer 1 0 true true ['+'] = (0, 0) ∧
    decodeRecord PrimerType.outer "10-6-1-0\t+\tg\tACGTAC\t2:A>C".toList = .ok none := by
  refine ⟨by rfl, by rfl, by rfl, by rfl⟩

/-- C5, amended.  For every alignment with `nearStart` true and the plus flag
set, all other inputs arbitrary: under Inner the plus orientation sets neither
column (the columns are those of the same record without the plus flag, and
both 0 when the minus flag is not set); under Outer with the same inputs and
`nearEnd` false the plus orientation sets a column (strandMatchPlus on strand
`+`, strandMatchMinus otherwise). -/
theorem C5_plus_orientation_inner_vs_outer (plus minus : Int) (nearEnd : Bool) (strand : Str)
    (hplus : plus ≠ 0) :
    strandMatch PrimerType.inner plus minus true nearEnd strand =
      strandMatch PrimerType.inner 0 minus true nearEnd strand ∧
    strandMatch PrimerType.inner plus 0 true nearEnd strand = (0, 0) ∧
    (nearEnd = false →
      (strand = ['+'] → (strandMatch PrimerType.outer plus minus true nearEnd strand).1 = 1) ∧
      (strand ≠ ['+'] → (strandMatch PrimerType.outer plus minus true nearEnd strand).2 = 1)) := by
  refine ⟨?_, ?_, ?_⟩
  · simp [strandMatch, setColumn]
  · simp [strandMatch, setColumn]
  · intro hne
    subst hne
    by_cases hs : strand = ['+'] <;> by_cases hm : minus = 0 <;>
      simp [strandMatch, setColumn, hplus, hs, hm]

/-- The statement C5 (amended) for plus flag 1, minus flag 0, strand `+`. -/
theorem C5_plus_orientation_inner_vs_outer_witness :
    strandMatch PrimerType.inner 1 0 true false ['+'] = (0, 0) ∧
    (strandMatch PrimerType.outer 1 0 true false ['+']).1 = 1 :=
  have h := C5_plus_orientation_inner_vs_outer 1 0 false ['+'] (by decide)
  ⟨h.2.1, (h.2.2 rfl).1 rfl⟩

/-- C6, refuted as stated.  For the candidate name `10--2147483646-1-0` the
decoded length is -2147483646 and `len - 5`, computed in `int`, wraps around
to 2147483645: with the one mismatch offset 7, which is at least the exact
`len - 5` and belongs to a length below 5, `stop` (nearEnd) stays false, and in
the Outer pass the plus orientation sets its column and the record passes the
strand filter. -/
theorem C6_near_end_wraps_below_int_min :
    sscanfName "10--2147483646-1-0".toList = some (10, -2147483646, 1, 0) ∧
    getMutationPositions "7:A>C".toList = .ok [7] ∧
    (∃ o ∈ ([7] : List Int), o ≥ (-2147483646 : Int) - 5) ∧
    (-2147483646 : Int) ≤ 5 ∧
    wrapInt (-2147483646 - 5) = 2147483645 ∧
    clampFlags (-2147483646) [7] = (false, false) ∧
    decodeRecord PrimerType.outer "10--2147483646-1-0\t+\tg\tACGT\t7:A>C".toList =
      .ok (some { pos := 10, len := -2147483646, genomeId := "g".toList,
                  sequenceRead := "ACGT".toList, mismatches := 1,
                  strandMatchPlus := 1, strandMatchMinus := 0 }) := by
  refine ⟨by rfl, by rfl, ⟨7, by simp, by decide⟩, by decide, by rfl, by rfl, by rfl⟩

/-- C6, amended.  End-clamp flags: for every candidate length `len` for which
`len - 5` is an `int` (`len` is an `int` of at least `INT_MIN + 5`) and every
list of offsets decoded from a mismatch field, `begin` (nearStart) is true iff
some offset is below 5 and `stop` (nearEnd) is true iff some offset is at least
`len - 5`; with no offsets both flags are false, and with `len ≤ 5` any offset
sets `stop`. -/
theorem C6_end_clamp_flags (len : Int) (field : Str) (offsets : List Int)
    (hlo : -2147483643 ≤ len) (hhi : len ≤ 2147483647)
    (hfield : getMutationPositions field = .ok offsets) :
    ((clampFlags len offsets).1 = true ↔ ∃ o ∈ offsets, o < 5) ∧
    ((clampFlags len offsets).2 = true ↔ ∃ o ∈ offsets, o ≥ len - 5) ∧
    (offsets = [] → clampFlags len offsets = (false, false)) ∧
    (len ≤ 5 → offsets ≠ [] → (clampFlags len offsets).2 = true) := by
  have hwrap : wrapInt (len - 5) = len - 5 := wrapInt_of_int (by omega) (by omega)
  have h1 : (clampFlags len offsets).1 = true ↔ ∃ o ∈ offsets, o < 5 := by
    unfold clampFlags
    rw [clampFlags_foldl_fst]
    simp
  have h2 : (clampFlags len offsets).2 = true ↔ ∃ o ∈ offsets, o ≥ len - 5 := by
    unfold clampFlags
    rw [clampFlags_foldl_snd, hwrap]
    simp
  refine ⟨h1, h2, ?_, ?_⟩
  · intro he
    subst he
    rfl
  · intro hlen hne
    obtain ⟨o, ho⟩ := List.exists_mem_of_ne_nil offsets hne
    have hnn := stoiAll_nonneg hfield o ho
    exact h2.mpr ⟨o, ho, by omega⟩

/-- The statement C6 (amended) for the field `2:A>C,17:G>T` and length 20: the
offsets are 2 and 17, and both flags are set. -/
theorem C6_end_clamp_flags_witness :
    getMutationPositions "2:A>C,17:G>T".toList = .ok [2, 17] ∧
    ((clampFlags 20 [2, 17]).1 = true ↔ ∃ o ∈ ([2, 17] : List Int), o < 5) ∧
    ((clampFlags 20 [2, 17]).2 = true ↔ ∃ o ∈ ([2, 17] : List Int), o ≥ 20 - 5) :=
  have h := C6_end_clamp_flags 20 "2:A>C,17:G>T".toList [2, 17] (by decide) (by decide)
    (by rfl)
  ⟨by rfl, h.1, h.2.1⟩

/-- C7.  Discovery mode (no background list, `--left`, streams open): two
consecutive lines of a pass other than Loop whose records pass the strand
filter and carry the same reference id, neither a known target nor yet in the
background registry, are both processed without fault and append two rows to
the specific-output stream, both with the id equal to the size the registry
had before the first line; afterwards the registry has exactly one entry more,
the one of that reference id. -/
theorem C7_discovery_two_lines_same_id (app : App) (line1 line2 : Str) (r1 r2 : Record)
    (hopen : app.StreamsOpen)
    (hspecial : app.m_cfg.special_file = [])
    (hleft : app.m_cfg.left = true)
    (hloop : app.m_primerType ≠ PrimerType.loop)
    (hdec1 : decodeRecord app.m_primerType line1 = .ok (some r1))
    (hdec2 : decodeRecord app.m_primerType line2 = .ok (some r2))
    (hsame : r2.genomeId = r1.genomeId)
    (htarget : app.isKnownTarget r1.genomeId = false)
    (hnew : app.m_backgroundGenomeNameToIndex.count r1.genomeId = false) :
    ∃ app1 app2 out,
      processLine app line1 = .ok app1 ∧ processLine app1 line2 = .ok app2 ∧
      processLines app [line1, line2] = .ok app2 ∧
      app.m_specialOut = some out ∧
      app2.m_specialOut = some (out ++
        [r1.row app.m_backgroundGenomeNameToIndex.size,
         r2.row app.m_backgroundGenomeNameToIndex.size]) ∧
      app2.m_backgroundGenomeNameToIndex.size = app.m_backgroundGenomeNameToIndex.size + 1 ∧
      app2.m_backgroundGenomeNameToIndex.entries = app.m_backgroundGenomeNameToIndex.entries ++
        [(r1.genomeId, app.m_backgroundGenomeNameToIndex.size)] ∧
      app2.m_commonOut = app.m_commonOut := by
  obtain ⟨out, hout⟩ := Option.isSome_iff_exists.mp (hopen.2 (Or.inr hleft))
  have habsent : app.m_backgroundGenomeNameToIndex.atKey r1.genomeId = none := by
    simpa [GenomeMap.count] using hnew
  obtain ⟨hat, hsize, hentries⟩ :=
    GenomeMap.assign_of_absent app.m_backgroundGenomeNameToIndex.size habsent
  have hstep1 := (processLine_of_decode hdec1).trans
    (classify_discovery_new hspecial hleft hloop htarget habsent hout)
  have hstep2 : ∀ app1 : App, processLine app line1 = .ok app1 →
      processLine app1 line2 = .ok { app1 with m_specialOut := some ((out ++
        [r1.row app.m_backgroundGenomeNameToIndex.size]) ++
        [r2.row app.m_backgroundGenomeNameToIndex.size]) } := by
    intro app1 h1
    rw [hstep1] at h1
    injection h1 with h1
    have hpt : app1.m_primerType = app.m_primerType := by rw [← h1]
    have hcfg : app1.m_cfg = app.m_cfg := by rw [← h1]
    have htgt : app1.isKnownTarget r2.genomeId = false := by
      rw [← h1, hsame]; exact htarget
    have hat2 : app1.m_backgroundGenomeNameToIndex.atKey r2.genomeId =
        some app.m_backgroundGenomeNameToIndex.size := by
      rw [← h1, hsame]; exact hat
    have hout1 : app1.m_specialOut =
        some (out ++ [r1.row app.m_backgroundGenomeNameToIndex.size]) := by rw [← h1]
    have hdec3 : decodeRecord app1.m_primerType line2 = .ok (some r2) := by
      rw [hpt]; exact hdec2
    rw [processLine_of_decode hdec3]
    exact classify_discovery_known (by rw [hcfg]; exact hspecial) (by rw [hcfg]; exact hleft)
      (by rw [hpt]; exact hloop) htgt hat2 hout1
  refine ⟨_, _, out, hstep1, hstep2 _ hstep1, ?_, hout, ?_, hsize, hentries, rfl⟩
  · simp [processLines, hstep1, hstep2 _ hstep1]
  · simp

/-- The statement C7 at two lines for the unseen genome `new` in the Outer pass
with a background registry of size 2: both rows carry the id 2 and the
registry grows to size 3. -/
theorem C7_discovery_two_lines_same_id_witness :
    ∃ app2, processLines discoveryApp [discoveryLine1, discoveryLine2] = .ok app2 ∧
      app2.m_specialOut = some [discoveryRecord1.row 2, discoveryRecord2.row 2] ∧
      app2.m_backgroundGenomeNameToIndex.size = 3 := by
  obtain ⟨app1, app2, out, _, _, hrun, hout, hrows, hsize, _, _⟩ :=
    C7_discovery_two_lines_same_id discoveryApp discoveryLine1 discoveryLine2
      discoveryRecord1 discoveryRecord2 ⟨fun _ => by rfl, fun _ => by rfl⟩
      (by rfl) (by rfl) (by decide) (by rfl) (by rfl) (by rfl) (by rfl) (by rfl)
  have hnil : out = [] := by
    have h : discoveryApp.m_specialOut = some [] := by rfl
    rw [h] at hout
    exact (Option.some.inj hout).symm
  subst hnil
  exact ⟨app2, hrun, hrows, hsize⟩

/-- C8.  In every configuration, a line processed under primer type Loop whose
reference id is not a known target genome and whose decoding does not throw
leaves the whole application state unchanged: no row is written to the
common-output or the specific-output stream and the background registry is as
before. -/
theorem C8_loop_non_target_discarded (app : App) (line : Str) (d : Option Record)
    (hloop : app.m_primerType = PrimerType.loop)
    (hdec : decodeRecord app.m_primerType line = .ok d)
    (htarget : app.isKnownTarget (genomeIdOf line) = false) :
    processLine app line = .ok app := by
  cases d with
  | none => exact processLine_of_skip hdec
  | some r =>
    rw [processLine_of_decode hdec]
    obtain ⟨_, _, _, _, _, _, _, _, _, _, hgid, _⟩ := decodeRecord_eq_some hdec
    have hk : app.isKnownTarget r.genomeId = false := by rw [hgid]; exact htarget
    simp [classify, hk, hloop]

/-- The statement C8 in discovery mode for the unseen genome `new`, on a line
that passes the strand filter: the Loop pass leaves the state as it was. -/
theorem C8_loop_non_target_discarded_witness :
    decodeRecord PrimerType.loop discoveryLine1 = .ok (some discoveryRecord1) ∧
    processLine loopApp discoveryLine1 = .ok loopApp :=
  ⟨by rfl, C8_loop_non_target_discarded loopApp discoveryLine1 (some discoveryRecord1)
    (by rfl) (by rfl) (by rfl)⟩

/-- C9.  Name round trip: for every region line `pos:<P>\tlength:<L>\t+:<f>\t-:<g>`
with `P` and `L` non-empty strings of digits and `f`, `g` digits, whenever the
encoder writes a record its header is `P-L-f-g`, the encoder has read position
and length as the numbers `P` and `L`, and the `sscanf` decode of that header
succeeds with four fields, the numbers `P`, `L`, `f` and `g`.  The encoder does
write a record when `P` and `L` fit an `int` and the position is within the
reference sequence. -/
theorem C9_name_round_trip (refSequence P L : Str) (f g : Char)
    (hPne : P ≠ []) (hP : ∀ c ∈ P, c.isDigit = true)
    (hLne : L ≠ []) (hL : ∀ c ∈ L, c.isDigit = true)
    (hf : f.isDigit = true) (hg : g.isDigit = true) :
    (∀ name seq, encodeLine refSequence (regionLine P L f g) = .ok (some (name, seq)) →
      name = P ++ ['-'] ++ L ++ ['-'] ++ [f] ++ ['-'] ++ [g] ∧
      stoi P = .ok (digitsValue P : Int) ∧ stoi L = .ok (digitsValue L : Int) ∧
      sscanfName name = some ((digitsValue P : Int), (digitsValue L : Int),
        (digitsValue [f] : Int), (digitsValue [g] : Int))) ∧
    (digitsValue P ≤ intMax → digitsValue L ≤ intMax → digitsValue P ≤ refSequence.length →
      ∃ name seq, encodeLine refSequence (regionLine P L f g) = .ok (some (name, seq))) := by
  have hsearch : regionSearch (regionLine P L f g) = some (P, L, f, g) :=
    regionSearch_of_matchAt (regionMatchAt_regionLine hPne hP hLne hL hf hg)
  constructor
  · intro name seq henc
    unfold encodeLine at henc
    simp only [hsearch] at henc
    split at henc
    · cases henc
    · rename_i pos hpos
      split at henc
      · cases henc
      · rename_i len hlen
        split at henc
        · cases henc
        · simp only [Except.ok.injEq, Option.some.injEq, Prod.mk.injEq] at henc
          have hname := henc.1.symm
          have hPfit : digitsValue P ≤ intMax := by
            by_contra hcon
            simp [stoi, hcon] at hpos
          have hLfit : digitsValue L ≤ intMax := by
            by_contra hcon
            simp [stoi, hcon] at hlen
          refine ⟨hname, stoi_of_le hPfit, stoi_of_le hLfit, ?_⟩
          rw [hname]
          exact sscanfName_encoded hPne hP hLne hL hf hg
  · intro hPfit hLfit hpos
    refine ⟨P ++ ['-'] ++ L ++ ['-'] ++ [f] ++ ['-'] ++ [g],
      (refSequence.drop (digitsValue P)).take (digitsValue L), ?_⟩
    unfold encodeLine
    simp only [hsearch, stoi_of_le hPfit, stoi_of_le hLfit]
    simp [Nat.not_lt.mpr hpos]

/-- The statement C9 for the region line `pos:10\tlength:20\t+:1\t-:0` and a
reference of 34 bases: the header `10-20-1-0` is written and decodes to
(10, 20, 1, 0). -/
theorem C9_name_round_trip_witness :
    regionLine "10".toList "20".toList '1' '0' = "pos:10\tlength:20\t+:1\t-:0".toList ∧
    encodeLine "ACGTACGTACGTACGTACGTACGTACGTACGTAC".toList
      (regionLine "10".toList "20".toList '1' '0') =
      .ok (some ("10-20-1-0".toList, "GTACGTACGTACGTACGTAC".toList)) ∧
    sscanfName "10-20-1-0".toList = some (10, 20, 1, 0) :=
  ⟨by rfl, by rfl,
    ((C9_name_round_trip "ACGTACGTACGTACGTACGTACGTACGTACGTAC".toList "10".toList "20".toList
      '1' '0' (by decide) (by decide) (by decide) (by decide) (by decide) (by decide)).1
      "10-20-1-0".toList "GTACGTACGTACGTACGTAC".toList (by rfl)).2.2.2⟩

/-- C10, refuted as stated.  The field `:` has one colon and no match of
`(\d+):`, so `countMismatches` gives 1 and `getMutationPositions` the empty
list; and for the field `99999999999:A>C` the latter returns no list at all,
`std::stoi` throws. -/
theorem C10_count_differs_from_offsets :
    countMismatches [':'] = 1 ∧ getMutationPositions [':'] = .ok [] ∧
    countMismatches "99999999999:A>C".toList = 1 ∧
    getMutationPositions "99999999999:A>C".toList = .error Fault.outOfRange := by
  refine ⟨by rfl, by rfl, by rfl, by rfl⟩

/-- C10, amended.  For every mismatch field in which every colon is immediately
preceded by a decimal digit and every offset before a colon fits an `int`,
`getMutationPositions` returns a list and the count returned by
`countMismatches` equals its length. -/
theorem C10_count_equals_offsets_when_well_formed (field : Str)
    (hcolons : colonsFollowDigits false field = true)
    (hfit : ∀ ds ∈ digitsColonMatches [] field, digitsValue ds ≤ intMax) :
    ∃ offsets, getMutationPositions field = .ok offsets ∧
      countMismatches field = (offsets.length : Int) := by
  obtain ⟨offsets, hoff⟩ := stoiAll_of_fit _ hfit
  refine ⟨offsets, hoff, ?_⟩
  unfold countMismatches
  rw [stoiAll_length hoff, digitsColonMatches_length field [] false (by simp) hcolons]

/-- The statement C10 (amended) for the field `5:A>C,10:G>T`: two colons, the
offsets 5 and 10. -/
theorem C10_count_equals_offsets_when_well_formed_witness :
    getMutationPositions "5:A>C,10:G>T".toList = .ok [5, 10] ∧
    ∃ offsets, getMutationPositions "5:A>C,10:G>T".toList = .ok offsets ∧
      countMismatches "5:A>C,10:G>T".toList = (offsets.length : Int) :=
  ⟨by rfl, C10_count_equals_offsets_when_well_formed "5:A>C,10:G>T".toList (by rfl)
    (by decide)⟩

/-! ## Facts about the registries -/

theorem GenomeMap.findEntry_eq_none_iff {k : Str} :
    ∀ {es : List (Str × Nat)}, GenomeMap.findEntry k es = none ↔ k ∉ es.map Prod.fst
  | [] => by simp [GenomeMap.findEntry]
  | (k2, v) :: es => by
    by_cases hk : k2 = k
    · simp [GenomeMap.findEntry, hk]
    · have ih : GenomeMap.findEntry k es = none ↔ k ∉ es.map Prod.fst :=
        GenomeMap.findEntry_eq_none_iff
      simp only [GenomeMap.findEntry, hk, if_false, List.map_cons, List.mem_cons, not_or]
      rw [ih]
      exact ⟨fun h => ⟨fun h2 => hk h2.symm, h⟩, fun h => h.2⟩

theorem GenomeMap.count_iff_mem_keys {m : GenomeMap} {k : Str} :
    m.count k = true ↔ k ∈ m.entries.map Prod.fst := by
  unfold GenomeMap.count GenomeMap.atKey
  rw [Option.isSome_iff_ne_none, Ne, GenomeMap.findEntry_eq_none_iff, not_not]

theorem GenomeMap.findEntry_of_mem {k : Str} {v : Nat} :
    ∀ {es : List (Str × Nat)}, (es.map Prod.fst).Nodup → (k, v) ∈ es →
      GenomeMap.findEntry k es = some v
  | [], _, h => by simp at h
  | (k2, v2) :: es, hnd, h => by
    simp only [List.map_cons, List.nodup_cons] at hnd
    rcases List.mem_cons.mp h with heq | hmem
    · cases heq
      simp [GenomeMap.findEntry]
    · have hne : k2 ≠ k := by
        rintro rfl
        exact hnd.1 (List.mem_map_of_mem Prod.fst hmem)
      simp only [GenomeMap.findEntry, hne, if_false]
      exact GenomeMap.findEntry_of_mem hnd.2 hmem

theorem GenomeMap.insertionOrdered_empty : GenomeMap.empty.InsertionOrdered := by
  simp [GenomeMap.InsertionOrdered, GenomeMap.empty]

theorem GenomeMap.insertionOrdered_assign {m : GenomeMap} {k : Str}
    (h : m.InsertionOrdered) (hk : m.atKey k = none) :
    (m.assign k m.size).InsertionOrdered := by
  obtain ⟨_, _, hentries⟩ := GenomeMap.assign_of_absent m.size hk
  unfold GenomeMap.InsertionOrdered
  rw [hentries]
  refine ⟨?_, ?_⟩
  · rw [List.map_append, List.nodup_append]
    refine ⟨h.1, by simp, ?_⟩
    intro a ha hb
    simp only [List.map_cons, List.map_nil, List.mem_singleton] at hb
    subst hb
    exact (GenomeMap.findEntry_eq_none_iff.mp hk) ha
  · rw [List.map_append, h.2, List.length_append, List.length_singleton, List.range_succ]
    rfl

theorem GenomeMap.atKey_of_insertionOrdered {m : GenomeMap} (h : m.InsertionOrdered)
    (i : Nat) (hi : i < m.entries.length) :
    m.atKey (m.entries.get ⟨i, hi⟩).1 = some i := by
  have hmem : m.entries.get ⟨i, hi⟩ ∈ m.entries := List.get_mem _ _ _
  have hsnd : (m.entries.get ⟨i, hi⟩).2 = i := by
    have h1 : (m.entries.map Prod.snd)[i]? = some i := by
      rw [h.2]
      exact List.getElem?_range hi
    rw [List.getElem?_map, List.getElem?_eq_getElem hi] at h1
    simpa using h1
  have hpair : ((m.entries.get ⟨i, hi⟩).1, i) ∈ m.entries := by
    have heq : ((m.entries.get ⟨i, hi⟩).1, i) = m.entries.get ⟨i, hi⟩ :=
      Prod.ext rfl hsnd.symm
    rw [heq]
    exact hmem
  exact GenomeMap.findEntry_of_mem h.1 hpair

theorem commonListFrom_keys : ∀ (es : List (Str × Nat)) (i : Nat),
    es.map Prod.snd = List.range' i es.length →
    commonListFrom i (es.map Prod.fst) = es
  | [], _, _ => rfl
  | (k, v) :: es, i, h => by
    simp only [List.map_cons, List.length_cons, List.range'_succ, List.cons.injEq] at h
    simp only [List.map_cons, commonListFrom, h.1]
    rw [commonListFrom_keys es (i + 1) h.2]

theorem commonListRows_keys {m : GenomeMap} (h : m.InsertionOrdered) :
    commonListRows (m.entries.map Prod.fst) = m.entries := by
  unfold commonListRows
  apply commonListFrom_keys
  rw [h.2, List.range_eq_range']

/-- The invariant of the loop of `loadGenomeIds`: the map is in insertion
order, its names are those of `names` in the same order, and `index` is their
number. -/
theorem loadGenomeIdsStep_invariant {st : LoadState} (line : Str)
    (hord : st.result.InsertionOrdered)
    (hkeys : st.result.entries.map Prod.fst = st.names)
    (hindex : st.index = st.names.length) :
    (loadGenomeIdsStep st line).result.InsertionOrdered ∧
    (loadGenomeIdsStep st line).result.entries.map Prod.fst = (loadGenomeIdsStep st line).names ∧
    (loadGenomeIdsStep st line).index = (loadGenomeIdsStep st line).names.length ∧
    (loadGenomeIdsStep st line).names = firstOccurrencesFrom st.names [genomeName line] := by
  have hmem : st.result.count (genomeName line) = true ↔ genomeName line ∈ st.names := by
    rw [GenomeMap.count_iff_mem_keys, hkeys]
  unfold loadGenomeIdsStep
  by_cases hc : st.result.count (genomeName line) = true
  · simp only [hc, if_true]
    exact ⟨hord, hkeys, hindex, by simp [firstOccurrencesFrom, hmem.mp hc]⟩
  · have hnot : genomeName line ∉ st.names := fun h => hc (hmem.mpr h)
    have habsent : st.result.atKey (genomeName line) = none := by
      simpa [GenomeMap.count] using hc
    have hsize : st.index = st.result.size := by
      rw [hindex, ← hkeys, List.length_map]; rfl
    obtain ⟨_, _, hentries⟩ := GenomeMap.assign_of_absent st.index habsent
    simp only [hc, Bool.false_eq_true, if_false]
    refine ⟨?_, ?_, ?_, ?_⟩
    · rw [hsize]
      exact GenomeMap.insertionOrdered_assign hord habsent
    · rw [hentries, List.map_append, hkeys]
      rfl
    · simp [hindex]
    · simp [firstOccurrencesFrom, hnot]

theorem firstOccurrencesFrom_append (seen : List Str) (name : Str) (rest : List Str) :
    firstOccurrencesFrom seen (name :: rest) =
      firstOccurrencesFrom (firstOccurrencesFrom seen [name]) rest := by
  by_cases h : name ∈ seen <;> simp [firstOccurrencesFrom, h]

theorem loadGenomeIds_foldl_invariant : ∀ (lines : List Str) (st : LoadState),
    st.result.InsertionOrdered → st.result.entries.map Prod.fst = st.names →
    st.index = st.names.length →
    (lines.foldl loadGenomeIdsStep st).result.InsertionOrdered ∧
    (lines.foldl loadGenomeIdsStep st).result.entries.map Prod.fst =
      (lines.foldl loadGenomeIdsStep st).names ∧
    (lines.foldl loadGenomeIdsStep st).index = (lines.foldl loadGenomeIdsStep st).names.length ∧
    (lines.foldl loadGenomeIdsStep st).names =
      firstOccurrencesFrom st.names (lines.map genomeName)
  | [], st, hord, hkeys, hindex => ⟨hord, hkeys, hindex, rfl⟩
  | line :: rest, st, hord, hkeys, hindex => by
    obtain ⟨h1, h2, h3, h4⟩ := loadGenomeIdsStep_invariant line hord hkeys hindex
    obtain ⟨g1, g2, g3, g4⟩ :=
      loadGenomeIds_foldl_invariant rest (loadGenomeIdsStep st line) h1 h2 h3
    refine ⟨g1, g2, g3, ?_⟩
    show (List.foldl loadGenomeIdsStep (loadGenomeIdsStep st line) rest).names =
      firstOccurrencesFrom st.names (genomeName line :: rest.map genomeName)
    rw [g4, h4]
    exact (firstOccurrencesFrom_append _ _ _).symm

theorem loadGenomeIds_spec (content : Str) :
    ∃ map names, loadGenomeIds (some content) [] = .ok (map, names) ∧
      map.InsertionOrdered ∧ map.entries.map Prod.fst = names ∧
      names = firstOccurrences ((getlines content).map genomeName) := by
  obtain ⟨g1, g2, _, g4⟩ := loadGenomeIds_foldl_invariant (getlines content)
    { result := GenomeMap.empty, index := 0, names := [] }
    GenomeMap.insertionOrdered_empty rfl rfl
  exact ⟨_, _, rfl, g1, g2, g4⟩

/-! ## Facts about the disposition of a record -/

theorem writeRow_some (out : List Row) (row : Row) :
    writeRow (some out) row = .ok (some (out ++ [row])) := rfl

/-- The four outcomes of a disposition that returns: nothing is done, a row is
appended to the common stream, a row is appended to the specific stream with
the id of a known background genome, or the genome is inserted with the next
id and a row with that id is appended to the specific stream. -/
theorem classify_cases {app app1 : App} {r : Record} (h : classify app r = .ok app1) :
    app1 = app ∨
    (∃ id out, app.m_commonOut = some out ∧
      app.m_targetGenomeNameToIndex.atKey r.genomeId = some id ∧
      app1 = { app with m_commonOut := some (out ++ [r.row id]) }) ∨
    (∃ id out, app.m_specialOut = some out ∧
      app.m_backgroundGenomeNameToIndex.atKey r.genomeId = some id ∧
      app1 = { app with m_specialOut := some (out ++ [r.row id]) }) ∨
    (∃ out, app.m_specialOut = some out ∧
      app.m_backgroundGenomeNameToIndex.atKey r.genomeId = none ∧
      app1 = { app with
        m_backgroundGenomeNameToIndex :=
          app.m_backgroundGenomeNameToIndex.assign r.genomeId
            app.m_backgroundGenomeNameToIndex.size
        m_specialOut := some (out ++ [r.row app.m_backgroundGenomeNameToIndex.size]) }) := by
  unfold classify at h
  split at h
  · split at h
    · split at h
      · cases h
      · rename_i id hid
        cases hout : app.m_commonOut with
        | none => simp [hout, writeRow] at h
        | some out =>
          simp only [hout, writeRow_some, Except.ok.injEq] at h
          exact Or.inr (Or.inl ⟨id, out, rfl, hid, h.symm⟩)
    · cases h
      exact Or.inl rfl
  · split at h
    · cases h
      exact Or.inl rfl
    · simp only at h
      split at h
      · split at h
        · cases h
          exact Or.inl rfl
        · rename_i id hid
          cases hout : app.m_specialOut with
          | none => simp [hout, writeRow] at h
          | some out =>
            simp only [hout, writeRow_some, Except.ok.injEq] at h
            exact Or.inr (Or.inr (Or.inl ⟨id, out, rfl, hid, h.symm⟩))
      · split at h
        · split at h
          · rename_i id hid
            cases hout : app.m_specialOut with
            | none => simp [hout, writeRow] at h
            | some out =>
              simp only [hout, writeRow_some, Except.ok.injEq] at h
              exact Or.inr (Or.inr (Or.inl ⟨id, out, rfl, hid, h.symm⟩))
          · rename_i hnone
            cases hout : app.m_specialOut with
            | none => simp [hout, writeRow] at h
            | some out =>
              simp only [hout, writeRow_some, Except.ok.injEq] at h
              exact Or.inr (Or.inr (Or.inr ⟨out, rfl, hnone, h.symm⟩))
        · cases h
          exact Or.inl rfl

theorem classify_streamsOpen_of_ok {app app1 : App} {r : Record} (hopen : app.StreamsOpen)
    (h : classify app r = .ok app1) : app1.StreamsOpen := by
  rcases classify_cases h with rfl | ⟨id, out, hout, _, rfl⟩ | ⟨id, out, hout, _, rfl⟩ |
    ⟨out, hout, _, rfl⟩
  · exact hopen
  · exact ⟨fun _ => rfl, hopen.2⟩
  · exact ⟨hopen.1, fun _ => rfl⟩
  · exact ⟨hopen.1, fun _ => rfl⟩

/-- With the streams of the pass open the disposition of a record always
returns. -/
theorem classify_of_streamsOpen {app : App} (r : Record) (hopen : app.StreamsOpen) :
    ∃ app1, classify app r = .ok app1 ∧ app1.StreamsOpen := by
  have hex : ∃ app1, classify app r = .ok app1 := by
    by_cases hk : app.isKnownTarget r.genomeId = true
    · by_cases hle : r.mismatches ≤ app.m_cfg.mis_c
      · have hk2 := hk
        simp only [App.isKnownTarget, Bool.and_eq_true, decide_eq_true_eq] at hk2
        obtain ⟨id, hid⟩ := GenomeMap.atKey_isSome_of_count hk2.2
        obtain ⟨out, hout⟩ := Option.isSome_iff_exists.mp (hopen.1 hk2.1)
        exact ⟨{ app with m_commonOut := some (out ++ [r.row id]) },
          by simp [classify, hk, hle, hid, hout, writeRow]⟩
      · exact ⟨app, by simp [classify, hk, hle]⟩
    · have hkf : app.isKnownTarget r.genomeId = false := by simpa using hk
      by_cases hloop : app.m_primerType = PrimerType.loop
      · exact ⟨app, by simp [classify, hkf, hloop]⟩
      · by_cases hs : app.m_cfg.special_file = []
        · cases hl : app.m_cfg.left with
          | false => exact ⟨app, by simp [classify, hkf, hloop, hs, hl]⟩
          | true =>
            obtain ⟨out, hout⟩ := Option.isSome_iff_exists.mp (hopen.2 (Or.inr hl))
            cases hat : app.m_backgroundGenomeNameToIndex.atKey r.genomeId with
            | none => exact ⟨_, classify_discovery_new hs hl hloop hkf hat hout⟩
            | some id => exact ⟨_, classify_discovery_known hs hl hloop hkf hat hout⟩
        · obtain ⟨out, hout⟩ := Option.isSome_iff_exists.mp (hopen.2 (Or.inl hs))
          cases hat : app.m_backgroundGenomeNameToIndex.atKey r.genomeId with
          | none => exact ⟨app, by simp [classify, hkf, hloop, hs, hat]⟩
          | some id =>
            exact ⟨{ app with m_specialOut := some (out ++ [r.row id]) },
              by simp [classify, hkf, hloop, hs, hat, hout, writeRow]⟩
  obtain ⟨app1, h1⟩ := hex
  exact ⟨app1, h1, classify_streamsOpen_of_ok hopen h1⟩

theorem stoiAll_error : ∀ {captures : List Str} {e : Fault},
    stoiAll captures = .error e → e = Fault.outOfRange
  | [], e, h => by simp [stoiAll] at h
  | ds :: rest, e, h => by
    unfold stoiAll at h
    split at h
    · rename_i e1 h1
      unfold stoi at h1
      split at h1
      · cases h1
      · cases h1
        cases h
        rfl
    · split at h
      · rename_i e2 h2
        cases h
        exact stoiAll_error h2
      · cases h

theorem decodeRecord_error {primerType : PrimerType} {line : Str} {e : Fault}
    (h : decodeRecord primerType line = .error e) :
    e = Fault.outOfRange ∧
      getMutationPositions ((split line '\t').getD 4 []) = .error Fault.outOfRange := by
  unfold decodeRecord at h
  simp only at h
  split at h
  · cases h
  · split at h
    · cases h
    · split at h
      · rename_i e1 h1
        cases h
        have he := stoiAll_error h1
        subst he
        exact ⟨rfl, h1⟩
      · split at h <;> cases h

/-- A line either is skipped, or its record is disposed of. -/
theorem processLine_cases {app app1 : App} {line : Str}
    (h : processLine app line = .ok app1) :
    (decodeRecord app.m_primerType line = .ok none ∧ app1 = app) ∨
    ∃ r, decodeRecord app.m_primerType line = .ok (some r) ∧ classify app r = .ok app1 := by
  unfold processLine at h
  split at h
  · cases h
  · rename_i hd
    cases h
    exact Or.inl ⟨hd, rfl⟩
  · rename_i r hd
    exact Or.inr ⟨r, hd, h⟩

/-- With the streams of the pass open, a line is processed without fault
unless `std::stoi` throws on its mismatch field, and the streams stay open. -/
theorem processLine_of_streamsOpen {app : App} (line : Str) (hopen : app.StreamsOpen) :
    (∃ app1, processLine app line = .ok app1 ∧ app1.StreamsOpen) ∨
    (processLine app line = .error Fault.outOfRange ∧
      getMutationPositions ((split line '\t').getD 4 []) = .error Fault.outOfRange) := by
  cases hd : decodeRecord app.m_primerType line with
  | error e =>
    obtain ⟨he, hmut⟩ := decodeRecord_error hd
    subst he
    exact Or.inr ⟨by simp [processLine, hd], hmut⟩
  | ok d =>
    cases d with
    | none => exact Or.inl ⟨app, processLine_of_skip hd, hopen⟩
    | some r =>
      obtain ⟨app1, h1, h2⟩ := classify_of_streamsOpen r hopen
      exact Or.inl ⟨app1, (processLine_of_decode hd).trans h1, h2⟩

/-! ## Facts about names -/

theorem mem_firstOccurrencesFrom {x : Str} : ∀ (names seen : List Str),
    x ∈ firstOccurrencesFrom seen names ↔ x ∈ seen ∨ x ∈ names
  | [], seen => by simp [firstOccurrencesFrom]
  | name :: rest, seen => by
    unfold firstOccurrencesFrom
    by_cases h : name ∈ seen
    · rw [if_pos h, mem_firstOccurrencesFrom rest seen, List.mem_cons]
      constructor
      · rintro (h1 | h1)
        · exact Or.inl h1
        · exact Or.inr (Or.inr h1)
      · rintro (h1 | rfl | h1)
        · exact Or.inl h1
        · exact Or.inl h
        · exact Or.inr h1
    · rw [if_neg h, mem_firstOccurrencesFrom rest (seen ++ [name]), List.mem_append,
        List.mem_singleton, List.mem_cons]
      tauto

theorem genomeName_eq_spec (line : Str) : genomeName line = specCanonicalName line := by
  have hstrip : (if line.head? = some '>' then line.drop 1 else line) =
      (match line with
        | '>' :: rest => rest
        | _ => line) := by
    cases line with
    | nil => rfl
    | cons c cs =>
      by_cases hc : c = '>'
      · subst hc; rfl
      · simp only [List.head?_cons, Option.some.injEq, hc, if_false]
        split
        · rename_i rest heq
          exact absurd (List.cons.inj heq).1 hc
        · rfl
  unfold genomeName specCanonicalName
  simp only [hstrip]
  split
  · rfl
  · rename_i hlen
    exact (List.take_of_length_le (by omega)).symm

theorem specCanonicalName_length (line : Str) : (specCanonicalName line).length ≤ 300 := by
  unfold specCanonicalName
  exact List.length_take_le _ _

theorem specCanonicalName_no_space (line : Str) : ' ' ∉ specCanonicalName line := by
  unfold specCanonicalName
  intro h
  have h1 := List.mem_of_mem_take h
  have h2 := List.mem_takeWhile_imp h1
  simp at h2

/-! ## Facts about the rows written -/

theorem GenomeMap.findEntry_some_mem {k : Str} {v : Nat} :
    ∀ {es : List (Str × Nat)}, GenomeMap.findEntry k es = some v → (k, v) ∈ es
  | [], h => by simp [GenomeMap.findEntry] at h
  | (k2, v2) :: es, h => by
    by_cases hk : k2 = k
    · simp only [GenomeMap.findEntry, hk, if_true, Option.some.injEq] at h
      subst hk h
      exact List.mem_cons_self _ _
    · simp only [GenomeMap.findEntry, hk, if_false] at h
      exact List.mem_cons_of_mem _ (GenomeMap.findEntry_some_mem h)

theorem GenomeMap.findEntry_append_left {k : Str} {v : Nat} (more : List (Str × Nat)) :
    ∀ {es : List (Str × Nat)}, GenomeMap.findEntry k es = some v →
      GenomeMap.findEntry k (es ++ more) = some v
  | [], h => by simp [GenomeMap.findEntry] at h
  | (k2, v2) :: es, h => by
    by_cases hk : k2 = k
    · simpa [GenomeMap.findEntry, hk] using h
    · simp only [GenomeMap.findEntry, hk, if_false] at h
      simp only [List.cons_append, GenomeMap.findEntry, hk, if_false]
      exact GenomeMap.findEntry_append_left more h

theorem App.openOutputs_background (primerType : PrimerType) (app : App) :
    (app.openOutputs primerType).m_backgroundGenomeNameToIndex =
      app.m_backgroundGenomeNameToIndex := by
  unfold App.openOutputs
  simp only
  split <;> split <;> rfl

theorem processLine_background {app app1 : App} {line : Str}
    (h : processLine app line = .ok app1) :
    app1.m_backgroundGenomeNameToIndex = app.m_backgroundGenomeNameToIndex ∨
    ∃ g, app.m_backgroundGenomeNameToIndex.atKey g = none ∧
      app1.m_backgroundGenomeNameToIndex =
        app.m_backgroundGenomeNameToIndex.assign g app.m_backgroundGenomeNameToIndex.size := by
  rcases processLine_cases h with ⟨_, rfl⟩ | ⟨r, _, hc⟩
  · exact Or.inl rfl
  · rcases classify_cases hc with rfl | ⟨id, out, hout, _, rfl⟩ | ⟨id, out, hout, _, rfl⟩ |
      ⟨out, hout, hnone, rfl⟩
    · exact Or.inl rfl
    · exact Or.inl rfl
    · exact Or.inl rfl
    · exact Or.inr ⟨r.genomeId, hnone, rfl⟩

/-- Along a run the registry stays in insertion order and only grows at its
end. -/
theorem App.Reaches.background {start app : App} (hreach : start.Reaches app)
    (hstart : start.m_backgroundGenomeNameToIndex.InsertionOrdered) :
    app.m_backgroundGenomeNameToIndex.InsertionOrdered ∧
    start.m_backgroundGenomeNameToIndex.entries <+:
      app.m_backgroundGenomeNameToIndex.entries := by
  induction hreach with
  | refl => exact ⟨hstart, List.prefix_refl _⟩
  | line l _ hstep ih =>
    rcases processLine_background hstep with heq | ⟨g, hnone, heq⟩
    · rw [heq]
      exact ih
    · rw [heq]
      refine ⟨GenomeMap.insertionOrdered_assign ih.1 hnone, ?_⟩
      rw [(GenomeMap.assign_of_absent _ hnone).2.2]
      exact ih.2.trans (List.prefix_append _ _)
  | openOutputs primerType _ ih =>
    rw [App.openOutputs_background]
    exact ih
  | resetOutputs _ ih => exact ih

theorem GenomeMap.InsertionOrdered.id_lt {m : GenomeMap} (h : m.InsertionOrdered)
    {k : Str} {id : Nat} (hat : m.atKey k = some id) : id < m.size := by
  have hmem : id ∈ m.entries.map Prod.snd :=
    List.mem_map_of_mem Prod.snd (GenomeMap.findEntry_some_mem hat)
  rw [h.2] at hmem
  exact List.mem_range.mp hmem

theorem GenomeMap.InsertionOrdered.injective {m : GenomeMap} (h : m.InsertionOrdered)
    {k1 k2 : Str} {id : Nat} (h1 : m.atKey k1 = some id) (h2 : m.atKey k2 = some id) :
    k1 = k2 := by
  have hnd : (m.entries.map Prod.snd).Nodup := by
    rw [h.2]
    exact List.nodup_range _
  have heq := List.inj_on_of_nodup_map hnd (GenomeMap.findEntry_some_mem h1)
    (GenomeMap.findEntry_some_mem h2) rfl
  exact congrArg Prod.fst heq

/-! ## Facts about rows and (candidate, genome) pairs -/

theorem App.openOutputs_fields (primerType : PrimerType) (app : App) :
    (app.openOutputs primerType).m_primerType = primerType ∧
    (app.openOutputs primerType).m_targetGenomeNameToIndex = app.m_targetGenomeNameToIndex ∧
    ((app.openOutputs primerType).m_commonOut = app.m_commonOut ∨
      (app.openOutputs primerType).m_commonOut = some []) ∧
    ((app.openOutputs primerType).m_specialOut = app.m_specialOut ∨
      (app.openOutputs primerType).m_specialOut = some []) := by
  unfold App.openOutputs
  simp only
  split <;> split <;> simp

/-- After `App::loadTargetList` on the initial state the target registry is in
insertion order, the background registry is empty and both streams are
closed. -/
theorem App.loadTargetList_ready {cfg : Config} {indexPaths : List Str} {files : Files}
    {app : App} (h : (App.init cfg indexPaths).loadTargetList files = .ok app) :
    app.m_targetGenomeNameToIndex.InsertionOrdered ∧
    app.m_backgroundGenomeNameToIndex = GenomeMap.empty ∧
    app.m_commonOut = none ∧ app.m_specialOut = none := by
  unfold App.loadTargetList at h
  split at h
  · cases h
    exact ⟨GenomeMap.insertionOrdered_empty, rfl, rfl, rfl⟩
  · cases hfile : files (App.init cfg indexPaths).m_cfg.common_file with
    | none =>
      rw [hfile] at h
      simp [loadGenomeIds] at h
    | some content =>
      rw [hfile] at h
      obtain ⟨map, names, hl, hord, _, _⟩ := loadGenomeIds_spec content
      have hl2 : loadGenomeIds (some content) (App.init cfg indexPaths).m_targetGenomeNames
          = .ok (map, names) := hl
      rw [hl2] at h
      cases h
      exact ⟨hord, rfl, rfl, rfl⟩

/-- Along a run the target registry does not change. -/
theorem App.Reaches.target {start app : App} (hreach : start.Reaches app) :
    app.m_targetGenomeNameToIndex = start.m_targetGenomeNameToIndex := by
  induction hreach with
  | refl => rfl
  | line l _ hstep ih =>
    rcases processLine_cases hstep with ⟨_, rfl⟩ | ⟨r, _, hc⟩
    · exact ih
    · rcases classify_cases hc with rfl | ⟨id, out, hout, _, rfl⟩ | ⟨id, out, hout, _, rfl⟩ |
        ⟨out, hout, _, rfl⟩ <;> exact ih
  | openOutputs primerType _ ih =>
    rw [(App.openOutputs_fields primerType _).2.1]
    exact ih
  | resetOutputs _ ih => exact ih

/-! ## The claims, continued -/

/-- C11.  Registry load invariant: for every content of a genome list,
`loadGenomeIds` (called with an empty name list, as the program does) returns a
map and a name list such that the names are pairwise distinct, the keys of the
map are exactly the names, the map sends `names[i]` to `i`, the names are those
of the lines in the order of their first occurrence, and one more line whose
name already occurred leaves map, index and names as they are.  The rows
`(names[i], i)` of `common_list.txt` are the entries of the map, so after
`App::loadTargetList` every row of the common list carries the id the
classifier looks up for that name. -/
theorem C11_registry_load_invariant :
    (∀ content : Str, ∃ map names, loadGenomeIds (some content) [] = .ok (map, names) ∧
      names.Nodup ∧
      (∀ k, map.count k = true ↔ k ∈ names) ∧
      (∀ (i : Nat) (h : i < names.length), map.atKey (names.get ⟨i, h⟩) = some i) ∧
      map.size = names.length ∧
      names = firstOccurrences ((getlines content).map genomeName) ∧
      commonListRows names = map.entries ∧
      (∀ line, genomeName line ∈ names →
        loadGenomeIdsStep { result := map, index := names.length, names := names } line =
          { result := map, index := names.length, names := names })) ∧
    (∀ (cfg : Config) (indexPaths : List Str) (files : Files) (app : App),
      (App.init cfg indexPaths).loadTargetList files = .ok app →
      commonListRows app.m_targetGenomeNames = app.m_targetGenomeNameToIndex.entries ∧
      ∀ name id, (name, id) ∈ commonListRows app.m_targetGenomeNames →
        app.m_targetGenomeNameToIndex.atKey name = some id) := by
  constructor
  · intro content
    obtain ⟨map, names, hload, hord, hkeys, hfirst⟩ := loadGenomeIds_spec content
    have hlen : map.entries.length = names.length := by rw [← hkeys, List.length_map]
    refine ⟨map, names, hload, hkeys ▸ hord.1, ?_, ?_, hlen, hfirst, ?_, ?_⟩
    · intro k
      rw [GenomeMap.count_iff_mem_keys, hkeys]
    · intro i h
      have hi : i < map.entries.length := by rw [hlen]; exact h
      have hname : names.get ⟨i, h⟩ = (map.entries.get ⟨i, hi⟩).1 := by
        subst hkeys
        simp
      rw [hname]
      exact GenomeMap.atKey_of_insertionOrdered hord i hi
    · rw [← hkeys]
      exact commonListRows_keys hord
    · intro line hmem
      have hc : map.count (genomeName line) = true := by
        rw [GenomeMap.count_iff_mem_keys, hkeys]; exact hmem
      simp [loadGenomeIdsStep, hc]
  · intro cfg indexPaths files app hload
    have hkey : app.m_targetGenomeNameToIndex.InsertionOrdered ∧
        app.m_targetGenomeNameToIndex.entries.map Prod.fst = app.m_targetGenomeNames := by
      unfold App.loadTargetList at hload
      split at hload
      · cases hload
        exact ⟨GenomeMap.insertionOrdered_empty, rfl⟩
      · cases hfile : files (App.init cfg indexPaths).m_cfg.common_file with
        | none =>
          rw [hfile] at hload
          simp [loadGenomeIds] at hload
        | some content =>
          rw [hfile] at hload
          obtain ⟨map, names, hl, hord, hkeys, _⟩ := loadGenomeIds_spec content
          have hl2 : loadGenomeIds (some content) (App.init cfg indexPaths).m_targetGenomeNames
              = .ok (map, names) := hl
          rw [hl2] at hload
          cases hload
          exact ⟨hord, hkeys⟩
    have hrows : commonListRows app.m_targetGenomeNames =
        app.m_targetGenomeNameToIndex.entries := by
      rw [← hkey.2]
      exact commonListRows_keys hkey.1
    refine ⟨hrows, ?_⟩
    intro name id hmem
    rw [hrows] at hmem
    exact GenomeMap.findEntry_of_mem hkey.1.1 hmem

/-- C12, refuted as stated.  For the genome list with the one line
`g1<tab>desc`, `loadGenomeIds` registers the name `g1<tab>desc`: the tab, a
white-space character, does not end the name, which is not the first
white-space-delimited token `g1`. -/
theorem C12_registered_name_keeps_tab :
    loadGenomeIds (some "g1\tdesc\n".toList) [] =
      .ok (⟨[("g1\tdesc".toList, 0)]⟩, ["g1\tdesc".toList]) ∧
    '\t' ∈ "g1\tdesc".toList ∧ isspace '\t' = true ∧
    genomeName "g1\tdesc".toList ≠ "g1".toList := by
  refine ⟨by rfl, by decide, by rfl, by decide⟩

/-- C12, amended.  For every genome list, every name `loadGenomeIds` registers
is the name of one of its lines, every line has its name registered, and the
name of a line is the text before its first space after one leading `>` was
removed, cut to 300 characters; every registered name has at most 300
characters and contains no space. -/
theorem C12_canonical_name_before_first_space (content : Str) (map : GenomeMap)
    (names : List Str) (hload : loadGenomeIds (some content) [] = .ok (map, names)) :
    (∀ line ∈ getlines content, specCanonicalName line ∈ names) ∧
    (∀ name ∈ names,
      (∃ line ∈ getlines content, name = specCanonicalName line) ∧
      name.length ≤ 300 ∧ ' ' ∉ name) := by
  obtain ⟨map2, names2, hl, _, _, hfirst⟩ := loadGenomeIds_spec content
  rw [hl] at hload
  simp only [Except.ok.injEq, Prod.mk.injEq] at hload
  obtain ⟨_, rfl⟩ := hload
  have hmem : ∀ x, x ∈ names2 ↔ ∃ line ∈ getlines content, x = specCanonicalName line := by
    intro x
    rw [hfirst]
    unfold firstOccurrences
    rw [mem_firstOccurrencesFrom, List.mem_map]
    constructor
    · rintro (h | ⟨line, hline, rfl⟩)
      · simp at h
      · exact ⟨line, hline, genomeName_eq_spec line⟩
    · rintro ⟨line, hline, rfl⟩
      exact Or.inr ⟨line, hline, genomeName_eq_spec line⟩
  constructor
  · intro line hline
    exact (hmem _).mpr ⟨line, hline, rfl⟩
  · intro name hname
    obtain ⟨line, hline, rfl⟩ := (hmem name).mp hname
    exact ⟨⟨line, hline, rfl⟩, specCanonicalName_length line, specCanonicalName_no_space line⟩

/-- The statement C12 (amended) for a list of three lines, a FASTA header, a
bare name and a repeated name: the names `g1` and `g2` are registered. -/
theorem C12_canonical_name_before_first_space_witness :
    loadGenomeIds (some listContent) [] =
      .ok (⟨[("g1".toList, 0), ("g2".toList, 1)]⟩, ["g1".toList, "g2".toList]) ∧
    specCanonicalName ">g1 first genome".toList = "g1".toList ∧
    ∀ name ∈ ["g1".toList, "g2".toList],
      (∃ line ∈ getlines listContent, name = specCanonicalName line) ∧
      name.length ≤ 300 ∧ ' ' ∉ name :=
  ⟨by rfl, by rfl,
    (C12_canonical_name_before_first_space listContent
      ⟨[("g1".toList, 0), ("g2".toList, 1)]⟩ ["g1".toList, "g2".toList] (by rfl)).2⟩

/-- C13, refuted as stated.  For a reference sequence of 2147483649 bases and
the region line `pos:2147483648<tab>length:1<tab>+:1<tab>-:0`, position plus
length is within the reference, but the encoder writes no record: `std::stoi`
throws on the position, which does not fit an `int`. -/
theorem C13_position_beyond_int_throws :
    digitsValue "2147483648".toList + digitsValue "1".toList ≤
      (List.replicate 2147483649 'A').length ∧
    regionLine "2147483648".toList "1".toList '1' '0' =
      "pos:2147483648\tlength:1\t+:1\t-:0".toList ∧
    encodeLine (List.replicate 2147483649 'A')
      (regionLine "2147483648".toList "1".toList '1' '0') = .error Fault.outOfRange := by
  refine ⟨?_, by rfl, by rfl⟩
  rw [List.length_replicate]
  decide

/-- C13, amended.  For every region line `pos:<P>\tlength:<L>\t+:<f>\t-:<g>`
whose position and length fit an `int`, and every reference sequence with
`P + L` at most its length, the encoder writes exactly one record, with the
header `P-L-f-g` and a sequence of length `L` whose character at each offset
`i < L` is the character of the reference at offset `P + i`. -/
theorem C13_encoder_output (refSequence P L : Str) (f g : Char)
    (hPne : P ≠ []) (hP : ∀ c ∈ P, c.isDigit = true)
    (hLne : L ≠ []) (hL : ∀ c ∈ L, c.isDigit = true)
    (hf : f.isDigit = true) (hg : g.isDigit = true)
    (hPfit : digitsValue P ≤ intMax) (hLfit : digitsValue L ≤ intMax)
    (hlen : digitsValue P + digitsValue L ≤ refSequence.length) :
    ∃ seq,
      encodeLine refSequence (regionLine P L f g) =
        .ok (some (P ++ ['-'] ++ L ++ ['-'] ++ [f] ++ ['-'] ++ [g], seq)) ∧
      encodeLines refSequence [regionLine P L f g] =
        .ok [(P ++ ['-'] ++ L ++ ['-'] ++ [f] ++ ['-'] ++ [g], seq)] ∧
      seq.length = digitsValue L ∧
      ∀ i, i < digitsValue L → seq[i]? = refSequence[digitsValue P + i]? := by
  have hsearch : regionSearch (regionLine P L f g) = some (P, L, f, g) :=
    regionSearch_of_matchAt (regionMatchAt_regionLine hPne hP hLne hL hf hg)
  have hpos : ¬ digitsValue P > refSequence.length := by omega
  have henc : encodeLine refSequence (regionLine P L f g) =
      .ok (some (P ++ ['-'] ++ L ++ ['-'] ++ [f] ++ ['-'] ++ [g],
        (refSequence.drop (digitsValue P)).take (digitsValue L))) := by
    unfold encodeLine
    simp only [hsearch, stoi_of_le hPfit, stoi_of_le hLfit]
    simp [hpos]
  refine ⟨(refSequence.drop (digitsValue P)).take (digitsValue L), henc, ?_, ?_, ?_⟩
  · simp [encodeLines, henc]
  · rw [List.length_take, List.length_drop]
    omega
  · intro i hi
    rw [List.getElem?_take, if_pos hi, List.getElem?_drop]

/-- The statement C13 (amended) for the region line
`pos:10\tlength:20\t+:1\t-:0` and a reference of 34 bases: one record with the
header `10-20-1-0` and the 20 bases from offset 10 on. -/
theorem C13_encoder_output_witness :
    encodeLines reference34 ["pos:10\tlength:20\t+:1\t-:0".toList] =
      .ok [("10-20-1-0".toList, "GTACGTACGTACGTACGTAC".toList)] ∧
    ∃ seq,
      encodeLine reference34 (regionLine "10".toList "20".toList '1' '0') =
        .ok (some ("10".toList ++ ['-'] ++ "20".toList ++ ['-'] ++ ['1'] ++ ['-'] ++ ['0'],
          seq)) ∧
      encodeLines reference34 [regionLine "10".toList "20".toList '1' '0'] =
        .ok [("10".toList ++ ['-'] ++ "20".toList ++ ['-'] ++ ['1'] ++ ['-'] ++ ['0'], seq)] ∧
      seq.length = digitsValue "20".toList ∧
      ∀ i, i < digitsValue "20".toList →
        seq[i]? = reference34[digitsValue "10".toList + i]? :=
  ⟨by rfl,
    C13_encoder_output reference34 "10".toList "20".toList '1' '0' (by decide) (by decide)
      (by decide) (by decide) (by decide) (by decide) (by decide) (by decide) (by decide)⟩

/-- C14 (a defect of the code, evaluated at a failing input).  In every state
of the classifier, and whatever lines follow, the alignment line
`10-20-1-0 + new ACGT 99999999999:A>C` ends the processing of the stream with
the exception `std::out_of_range` thrown by `std::stoi` in
`getMutationPositions`: the line is not skipped and the lines after it are not
processed. -/
theorem C14_offset_beyond_int_is_fatal (app : App) (rest : List Str) :
    getMutationPositions "99999999999:A>C".toList = .error Fault.outOfRange ∧
    processLine app overflowLine = .error Fault.outOfRange ∧
    processLines app (overflowLine :: rest) = .error Fault.outOfRange := by
  have hdec : decodeRecord app.m_primerType overflowLine = .error Fault.outOfRange := by rfl
  have hline : processLine app overflowLine = .error Fault.outOfRange := by
    simp [processLine, hdec]
  exact ⟨by rfl, hline, by simp [processLines, hline]⟩

/-- C16.  Strand filter discard: for every primer type and configuration, a
line whose name and mismatch field decode and for which strandMatchPlus and
strandMatchMinus both come out 0 leaves the whole application state unchanged:
no row is written to either stream and the background registry is as before,
so in discovery mode an unseen reference id is not inserted. -/
theorem C16_strand_filter_discard (app : App) (line : Str) (pos len plus minus : Int)
    (mutationPositions : List Int)
    (hname : sscanfName ((split line '\t').getD 0 []) = some (pos, len, plus, minus))
    (hmut : getMutationPositions ((split line '\t').getD 4 []) = .ok mutationPositions)
    (hzero : strandMatch app.m_primerType plus minus (clampFlags len mutationPositions).1
      (clampFlags len mutationPositions).2 ((split line '\t').getD 1 []) = (0, 0)) :
    decodeRecord app.m_primerType line = .ok none ∧ processLine app line = .ok app := by
  have hdec : decodeRecord app.m_primerType line = .ok none := by
    unfold decodeRecord
    simp only [hname, hmut, hzero]
    simp
  exact ⟨hdec, processLine_of_skip hdec⟩

/-- The statement C16 in discovery mode for an Inner candidate with only the
plus flag and a mismatch at offset 2: the unseen genome `new` is not inserted
and no row is written. -/
theorem C16_strand_filter_discard_witness :
    strandMatch PrimerType.inner 1 0 true false ['+'] = (0, 0) ∧
    processLine { discoveryApp with m_primerType := PrimerType.inner } nearStartLine =
      .ok { discoveryApp with m_primerType := PrimerType.inner } :=
  ⟨by rfl,
    (C16_strand_filter_discard { discoveryApp with m_primerType := PrimerType.inner }
      nearStartLine 10 20 1 0 [2] (by rfl) (by rfl) (by rfl)).2⟩

/-- C17, refuted as stated.  The candidate name `1-2-1-0-5` splits on `-` into
five tokens, yet `sscanf` reads its first four numbers and the record is not
skipped: in discovery mode the line inserts the genome `new` with the id 2 and
writes a row for position 1 and length 2. -/
theorem C17_five_token_name_is_decoded :
    split "1-2-1-0-5".toList '-' =
      ["1".toList, "2".toList, "1".toList, "0".toList, "5".toList] ∧
    sscanfName "1-2-1-0-5".toList = some (1, 2, 1, 0) ∧
    processLine discoveryApp fiveTokenLine = .ok
      { discoveryApp with
        m_backgroundGenomeNameToIndex :=
          (⟨[("bg0".toList, 0), ("bg1".toList, 1), ("new".toList, 2)]⟩ : GenomeMap)
        m_specialOut := some [(⟨1, 2, 2, "ACGT".toList, 1, 0⟩ : Row)] } := by
  refine ⟨by rfl, by rfl, by rfl⟩

/-- C17, amended.  For every line whose candidate name is not read as four
integers by `sscanf` with the format `%d-%d-%d-%d` (the call does not return
4), the record is skipped: the whole application state is unchanged, no row is
written and the background registry is as before. -/
theorem C17_unscannable_name_is_skipped (app : App) (line : Str)
    (hname : sscanfName ((split line '\t').getD 0 []) = none) :
    decodeRecord app.m_primerType line = .ok none ∧ processLine app line = .ok app := by
  have hdec : decodeRecord app.m_primerType line = .ok none := by
    unfold decodeRecord
    simp only [hname]
    simp
  exact ⟨hdec, processLine_of_skip hdec⟩

/-- The statement C17 (amended) for the name `1-2-1` of three tokens in
discovery mode: the line is skipped. -/
theorem C17_unscannable_name_is_skipped_witness :
    sscanfName "1-2-1".toList = none ∧
    processLine discoveryApp threeTokenLine = .ok discoveryApp :=
  ⟨by rfl, (C17_unscannable_name_is_skipped discoveryApp threeTokenLine (by rfl)).2⟩

/-- C18.  Registry invariant of a run: starting from a state whose background
registry is empty, at every state `app` reached through any lines and any
passes (in discovery mode or not) the registry is injective, its ids are
exactly the numbers below its size, and the entry inserted as number `i` has the
id `i`; and every entry of a state `mid` reached on the way is still there with
the same id, the later entries being appended after it. -/
theorem C18_discovery_registry_invariant (start mid app : App)
    (hempty : start.m_backgroundGenomeNameToIndex = GenomeMap.empty)
    (hmid : start.Reaches mid) (hreach : mid.Reaches app) :
    (∀ k1 k2 id, app.m_backgroundGenomeNameToIndex.atKey k1 = some id →
      app.m_backgroundGenomeNameToIndex.atKey k2 = some id → k1 = k2) ∧
    (∀ id, (∃ k, app.m_backgroundGenomeNameToIndex.atKey k = some id) ↔
      id < app.m_backgroundGenomeNameToIndex.size) ∧
    (∀ (i : Nat) (h : i < app.m_backgroundGenomeNameToIndex.entries.length),
      (app.m_backgroundGenomeNameToIndex.entries.get ⟨i, h⟩).2 = i ∧
      app.m_backgroundGenomeNameToIndex.atKey
        (app.m_backgroundGenomeNameToIndex.entries.get ⟨i, h⟩).1 = some i) ∧
    (∀ k id, mid.m_backgroundGenomeNameToIndex.atKey k = some id →
      app.m_backgroundGenomeNameToIndex.atKey k = some id) ∧
    mid.m_backgroundGenomeNameToIndex.entries <+:
      app.m_backgroundGenomeNameToIndex.entries := by
  have hstart : start.m_backgroundGenomeNameToIndex.InsertionOrdered := by
    rw [hempty]
    exact GenomeMap.insertionOrdered_empty
  have hm := (App.Reaches.background hmid hstart).1
  obtain ⟨hord, hpre⟩ := App.Reaches.background hreach hm
  refine ⟨fun k1 k2 id h1 h2 => hord.injective h1 h2, ?_, ?_, ?_, hpre⟩
  · intro id
    constructor
    · rintro ⟨k, hk⟩
      exact hord.id_lt hk
    · intro hlt
      exact ⟨_, GenomeMap.atKey_of_insertionOrdered hord id hlt⟩
  · intro i h
    have hat := GenomeMap.atKey_of_insertionOrdered hord i h
    have hmem := GenomeMap.findEntry_some_mem hat
    have hnd : (app.m_backgroundGenomeNameToIndex.entries.map Prod.fst).Nodup := hord.1
    have heq := List.inj_on_of_nodup_map hnd hmem (List.get_mem _ i h) rfl
    exact ⟨(congrArg Prod.snd heq).symm, hat⟩
  · intro k id hk
    obtain ⟨more, hmore⟩ := hpre
    unfold GenomeMap.atKey
    rw [← hmore]
    exact GenomeMap.findEntry_append_left more hk

/-- The statement C18 for a run that opens the Inner pass, processes a line for
the unseen genome `new`, then closes the pass, opens the Outer pass and
processes a line for the unseen genome `other`: `new` keeps the id 0 and
`other` gets the id 1. -/
theorem C18_discovery_registry_invariant_witness :
    discoveryMid.m_backgroundGenomeNameToIndex.entries = [("new".toList, 0)] ∧
    discoveryEnd.m_backgroundGenomeNameToIndex.entries =
      [("new".toList, 0), ("other".toList, 1)] ∧
    (∀ k id, discoveryMid.m_backgroundGenomeNameToIndex.atKey k = some id →
      discoveryEnd.m_backgroundGenomeNameToIndex.atKey k = some id) ∧
    (∀ id, (∃ k, discoveryEnd.m_backgroundGenomeNameToIndex.atKey k = some id) ↔
      id < discoveryEnd.m_backgroundGenomeNameToIndex.size) :=
  have h := C18_discovery_registry_invariant discoveryStart discoveryMid discoveryEnd rfl
    (App.Reaches.line discoveryLine1
      (App.Reaches.openOutputs PrimerType.inner App.Reaches.refl) (by rfl))
    (App.Reaches.line discoveryLine3
      (App.Reaches.openOutputs PrimerType.outer (App.Reaches.resetOutputs App.Reaches.refl))
      (by rfl))
  ⟨rfl, rfl, h.2.2.2.1, h.2.1⟩

/-! ## Facts about the pass driver -/

theorem stoi_error {ds : Str} {e : Fault} (h : stoi ds = .error e) : e = Fault.outOfRange := by
  unfold stoi at h
  split at h
  · cases h
  · cases h
    rfl

theorem encodeLine_error {refSequence line : Str} {e : Fault}
    (h : encodeLine refSequence line = .error e) : e = Fault.outOfRange := by
  unfold encodeLine at h
  split at h
  · cases h
  · split at h
    · rename_i e1 h1
      cases h
      exact stoi_error h1
    · split at h
      · rename_i e2 h2
        cases h
        exact stoi_error h2
      · simp only at h
        split at h
        · cases h
          rfl
        · cases h

theorem encodeLines_error {refSequence : Str} : ∀ {lines : List Str} {e : Fault},
    encodeLines refSequence lines = .error e → e = Fault.outOfRange
  | [], e, h => by simp [encodeLines] at h
  | line :: rest, e, h => by
    unfold encodeLines at h
    split at h
    · rename_i e1 h1
      cases h
      exact encodeLine_error h1
    · split at h
      · rename_i e2 h2
        cases h
        exact encodeLines_error h2
      · split at h <;> cases h

/-- With the streams open, the loop over the lines of a file returns with the
streams open, or ends with the exception of `std::stoi`. -/
theorem processLines_of_streamsOpen : ∀ (lines : List Str) {app : App}, app.StreamsOpen →
    (∃ app1, processLines app lines = .ok app1 ∧ app1.StreamsOpen) ∨
    processLines app lines = .error Fault.outOfRange
  | [], app, hopen => Or.inl ⟨app, rfl, hopen⟩
  | line :: rest, app, hopen => by
    rcases processLine_of_streamsOpen line hopen with ⟨app1, h1, hopen1⟩ | ⟨herr, _⟩
    · rcases processLines_of_streamsOpen rest hopen1 with ⟨app2, h2, hopen2⟩ | herr2
      · exact Or.inl ⟨app2, by simp [processLines, h1, h2], hopen2⟩
      · exact Or.inr (by simp [processLines, h1, herr2])
    · exact Or.inr (by simp [processLines, herr])

theorem processShards_of_streamsOpen (bowtie : Str → Option Str) :
    ∀ (indexPaths : List Str) {app : App}, app.StreamsOpen →
    (∃ app1, processShards bowtie app indexPaths = .ok app1 ∧ app1.StreamsOpen) ∨
    processShards bowtie app indexPaths = .error Fault.outOfRange ∨
    processShards bowtie app indexPaths = .error Fault.runtimeError
  | [], app, hopen => Or.inl ⟨app, rfl, hopen⟩
  | indexPath :: rest, app, hopen => by
    cases hfile : bowtie indexPath with
    | none => exact Or.inr (Or.inr (by simp [processShards, App.processBowtieOutput, hfile]))
    | some content =>
      rcases processLines_of_streamsOpen (getlines content) hopen with
        ⟨app1, h1, hopen1⟩ | herr
      · rcases processShards_of_streamsOpen bowtie rest hopen1 with
          ⟨app2, h2, hopen2⟩ | herr2 | herr2
        · exact Or.inl ⟨app2, by simp [processShards, App.processBowtieOutput, hfile, h1, h2],
            hopen2⟩
        · exact Or.inr (Or.inl
            (by simp [processShards, App.processBowtieOutput, hfile, h1, herr2]))
        · exact Or.inr (Or.inr
            (by simp [processShards, App.processBowtieOutput, hfile, h1, herr2]))
      · exact Or.inr (Or.inl (by simp [processShards, App.processBowtieOutput, hfile, herr]))

theorem App.Reaches.trans {a b c : App} (hab : a.Reaches b) (hbc : b.Reaches c) :
    a.Reaches c := by
  induction hbc with
  | refl => exact hab
  | line l _ hstep ih => exact App.Reaches.line l ih hstep
  | openOutputs primerType _ ih => exact App.Reaches.openOutputs primerType ih
  | resetOutputs _ ih => exact App.Reaches.resetOutputs ih

theorem processLines_reaches : ∀ (lines : List Str) {app app1 : App},
    processLines app lines = .ok app1 → app.Reaches app1
  | [], app, app1, h => by
    simp only [processLines, Except.ok.injEq] at h
    subst h
    exact App.Reaches.refl
  | line :: rest, app, app1, h => by
    unfold processLines at h
    split at h
    · cases h
    · rename_i app2 h2
      exact (App.Reaches.line line App.Reaches.refl h2).trans (processLines_reaches rest h)

theorem processShards_reaches (bowtie : Str → Option Str) :
    ∀ (indexPaths : List Str) {app app1 : App},
    processShards bowtie app indexPaths = .ok app1 → app.Reaches app1
  | [], app, app1, h => by
    simp only [processShards, Except.ok.injEq] at h
    subst h
    exact App.Reaches.refl
  | indexPath :: rest, app, app1, h => by
    unfold processShards at h
    split at h
    · cases h
    · rename_i app2 h2
      unfold App.processBowtieOutput at h2
      split at h2
      · cases h2
      · exact (processLines_reaches _ h2).trans (processShards_reaches bowtie rest h)

/-- The state a pass returns is reached from the state it started in. -/
theorem App.alignPrimers_reaches {app app1 : App} {regionFile : Option Str}
    {bowtie : Str → Option Str} {primerType : PrimerType}
    (h : app.alignPrimers regionFile bowtie primerType = .ok app1) : app.Reaches app1 := by
  unfold App.alignPrimers at h
  split at h
  · cases h
  · split at h
    · cases h
    · rename_i app2 h2
      cases h
      exact App.Reaches.resetOutputs
        ((App.Reaches.openOutputs primerType App.Reaches.refl).trans
          (processShards_reaches bowtie _ h2))

/-- The state the three passes return is reached from the state they started
in. -/
theorem App.alignPrimersAll_reaches {app app1 : App} {regions : PrimerType → Option Str}
    {bowtie : PrimerType → Str → Option Str}
    (h : app.alignPrimersAll regions bowtie = .ok app1) : app.Reaches app1 := by
  unfold App.alignPrimersAll at h
  split at h
  · cases h
  · rename_i a1 h1
    split at h
    · cases h
    · rename_i a2 h2
      have h12 := (App.alignPrimers_reaches h1).trans (App.alignPrimers_reaches h2)
      split at h
      · exact h12.trans (App.alignPrimers_reaches h)
      · cases h
        exact h12

/-- C19.  Output-stream safety: for every state, region file, aligner output
and primer type, the streams are open for the configuration once
`App::alignPrimers(primerType)` has opened its outputs; a line processed with
the streams open either returns, with the streams still open, or ends with the
exception of `std::stoi`, never with a write through a null stream; and the
whole pass returns or ends with `std::out_of_range` (from `std::stoi` or
`substr`) or with `std::runtime_error` (a file that cannot be opened), so the
write through a null stream is unreachable. -/
theorem C19_output_stream_safety (app : App) (regionFile : Option Str)
    (bowtie : Str → Option Str) (primerType : PrimerType) :
    (app.openOutputs primerType).StreamsOpen ∧
    (∀ (app1 : App) (line : Str), app1.StreamsOpen →
      (∃ app2, processLine app1 line = .ok app2 ∧ app2.StreamsOpen) ∨
      processLine app1 line = .error Fault.outOfRange) ∧
    (∀ lines : List Str,
      (∃ app2, processLines (app.openOutputs primerType) lines = .ok app2 ∧ app2.StreamsOpen) ∨
      processLines (app.openOutputs primerType) lines = .error Fault.outOfRange) ∧
    ((∃ app2, app.alignPrimers regionFile bowtie primerType = .ok app2) ∨
      app.alignPrimers regionFile bowtie primerType = .error Fault.outOfRange ∨
      app.alignPrimers regionFile bowtie primerType = .error Fault.runtimeError) := by
  have hopen := App.openOutputs_streamsOpen primerType app
  refine ⟨hopen, ?_, fun lines => processLines_of_streamsOpen lines hopen, ?_⟩
  · intro app1 line hopen1
    rcases processLine_of_streamsOpen line hopen1 with h | ⟨h, _⟩
    · exact Or.inl h
    · exact Or.inr h
  · unfold App.alignPrimers
    cases henc : encodeLines app.m_refSequence ((regionFile.map getlines).getD []) with
    | error e =>
      have he := encodeLines_error henc
      subst he
      exact Or.inr (Or.inl rfl)
    | ok records =>
      rcases processShards_of_streamsOpen bowtie app.m_bowtieIndexPaths hopen with
        ⟨app2, h2, _⟩ | herr | herr
      · exact Or.inl ⟨app2.resetOutputs, by simp [h2]⟩
      · exact Or.inr (Or.inl (by simp [herr]))
      · exact Or.inr (Or.inr (by simp [herr]))

end Parpl
